import Mathlib

/-!
Shallow embedding of the biagent frontend streaming-reconciliation engine:
the zustand store reducer (src/lib/store.ts), the batch reconciliation
routine (src/pages/TicketDetail.tsx loadStepOutputs) and the per-step
presentation rule (src/components/StepCard.tsx).  JavaScript records are
modelled as association lists with object-spread update semantics, numbers
as Nat (token counts, step ordinals, millisecond clocks) and Rat (costs),
and opaque JSON payloads as an uninspected field list.
-/

namespace Biagent

/-- Opaque JSON object payload carried by tool-call events.  The client never
inspects the contents of an arguments object, so it is modelled as a flat
field list; the serialize/parse round trip on the HTTP path is modelled as
the identity on this representation. -/
structure Json where
  fields : List (String × String)
deriving DecidableEq, Repr

def Json.empty : Json := ⟨[]⟩

/-- Lookup in a JavaScript-object-like association map (first binding wins). -/
def alLookup {K V : Type} [DecidableEq K] : List (K × V) → K → Option V
  | [], _ => none
  | p :: rest, k => if p.1 = k then some p.2 else alLookup rest k

/-- JavaScript object update with one computed key: replace the value at an
existing key in place, otherwise append the new binding at the end. -/
def alSet {K V : Type} [DecidableEq K] (m : List (K × V)) (k : K) (v : V) : List (K × V) :=
  if (alLookup m k).isSome then m.map (fun p => if p.1 = k then (k, v) else p) else m ++ [(k, v)]

/-- JavaScript delete of a key from an object. -/
def alErase {K V : Type} [DecidableEq K] (m : List (K × V)) (k : K) : List (K × V) :=
  m.filter (fun p => p.1 ≠ k)

/-- JavaScript object spread of adds over m: existing keys keep their position
but take the value from adds; keys only in adds are appended in order. -/
def alMerge {K V : Type} [DecidableEq K] (m adds : List (K × V)) : List (K × V) :=
  m.map (fun p => match alLookup adds p.1 with | some v => (p.1, v) | none => p)
    ++ adds.filter (fun p => (alLookup m p.1).isNone)

/-- Pipeline status enumeration (types/index.ts PipelineStatus). -/
inductive PipelineStatus
  | pending | running | paused | completed | failed | waiting_for_review | suspended
  | needs_user_input
deriving DecidableEq, Repr

/-- Step status enumeration (types/index.ts StepStatus). -/
inductive StepStatus
  | pending | running | paused | completed | failed | skipped | waiting
deriving DecidableEq, Repr

/-- Pipeline record fields the store handler reads or writes. -/
structure Pipeline where
  ticket_key : String
  status : PipelineStatus
  current_step : Nat
  total_tokens : Nat
  total_cost : ℚ
deriving DecidableEq, Repr

/-- Pipeline step record (types/index.ts PipelineStep, untouched fields kept). -/
structure PipelineStep where
  step_number : Nat
  step_name : String
  status : StepStatus
  tokens_used : Nat
  cost : ℚ
  error_message : Option String
deriving DecidableEq, Repr

/-- Live streaming event (store.ts StepEvent); timestamps are Date.now values. -/
inductive StepEvent
  | text (content : String) (timestamp : Nat)
  | tool_call (tool : String) (tool_use_id : Option String) (arguments : Json) (timestamp : Nat)
deriving DecidableEq, Repr

/-- Serialized timestamp, new Date(ms).toISOString(); only the fact that it is
a function of the millisecond value matters to the client logic. -/
def isoString (ms : Nat) : String := toString ms

/-- Persisted and API event shape (api.ts StepEvent).  The shape constructed by
the step_completed handler carries no tool_use_id field. -/
inductive ApiStepEvent
  | text (content : String) (timestamp : String)
  | tool_call (tool : String) (arguments : Json) (timestamp : String)
deriving DecidableEq, Repr

/-- Conversion of a live event to the API format, as performed inline in the
step_completed case of handleWSMessage (store.ts lines 586-601). -/
def toApiEvent : StepEvent → ApiStepEvent
  | .text c ts => .text c (isoString ts)
  | .tool_call tool _ args ts => .tool_call tool args (isoString ts)

/-- Flattened text output: filter the text events, take their content, join
with the empty separator (store.ts lines 604-607). -/
def flattenText (evs : List StepEvent) : String :=
  String.join ((evs.filter fun e => match e with | .text _ _ => true | _ => false).map
    (fun e => match e with | .text c _ => c | _ => ""))

/-- Subagent activity status. -/
inductive SubStatus
  | running | completed
deriving DecidableEq, Repr

/-- Subagent event (types/index.ts SubagentEvent, specialized to its two
constructed shapes). -/
inductive SubagentEvent
  | text (content : String) (timestamp : String)
  | tool_call (tool_use_id : String) (tool_name : String) (arguments : Json) (timestamp : String)
deriving DecidableEq, Repr

/-- Streamed subagent tool call (types/index.ts SubagentToolCall). -/
structure SubagentToolCall where
  tool_use_id : String
  tool_name : String
  arguments : Json
  timestamp : String
deriving DecidableEq, Repr

/-- Subagent activity grouped under its parent Task invocation.  The record
created by the live appendSubagentToolCall path carries no events entries
(the source literal omits the field); that is modelled as the empty list. -/
structure SubagentActivity where
  parent_tool_use_id : String
  subagent_type : Option String
  events : List SubagentEvent
  tool_calls : List SubagentToolCall
  status : SubStatus
deriving DecidableEq, Repr

/-- Offline event queued for acknowledgement (types/index.ts OfflineEvent). -/
structure OfflineEvent where
  id : String
  type : String
  pipeline_id : String
  data : Json
  occurred_at : String
deriving DecidableEq, Repr

/-- Repository info carried by a pipeline_needs_input frame. -/
structure RepoInfo where
  name : String
  files_checked : List String
deriving DecidableEq, Repr

/-- User input request stored when a pipeline needs setup commands. -/
structure UserInputRequest where
  input_type : String
  repos : List RepoInfo
deriving DecidableEq, Repr

/-- Pending clarification stored by the clarification_requested case. -/
structure PendingClarification where
  id : String
  stepNumber : Nat
  question : String
  options : List String
  context : Option String
deriving DecidableEq, Repr

/-- Pull request status (types/index.ts PullRequest.status). -/
inductive PRStatus
  | opened | approved | merged | closed
deriving DecidableEq, Repr

/-- Pull request record fields the handler touches. -/
structure PullRequest where
  pr_number : Nat
  status : PRStatus
deriving DecidableEq, Repr

/-- Legacy fallback tool call stored per completed step (store.ts
completedToolCalls). -/
structure FallbackToolCall where
  tool : String
  arguments : Json
deriving DecidableEq, Repr

/-- The slice of the zustand store state (store.ts StoreState) that the
streaming reconciliation engine reads and writes.  Fields the message handler
and reconciliation never touch (tickets, tabs, cycle types, reviews, loading
flags, socket status) are omitted. -/
structure Store where
  sessionId : Option String
  currentPipeline : Option Pipeline
  currentSteps : List PipelineStep
  stepEvents : List (Nat × List StepEvent)
  stepOutputs : List (Nat × String)
  completedEvents : List (Nat × List ApiStepEvent)
  completedToolCalls : List (Nat × List FallbackToolCall)
  stepSubagentActivities : List (Nat × List (String × SubagentActivity))
  userInputRequest : Option UserInputRequest
  worktreeStatus : Option String
  pendingClarification : Option PendingClarification
  currentPR : Option PullRequest
  offlineEvents : List OfflineEvent
  showOfflineBanner : Bool
deriving DecidableEq, Repr

/-- The store's initial state (all maps empty). -/
def initStore : Store :=
  ⟨none, none, [], [], [], [], [], [], none, none, none, none, [], false⟩

/-- Coalescing append on one step's live log (body of store.ts appendTextEvent):
if the most recent entry is a text entry its content is extended in place,
otherwise a new text entry is appended. -/
def appendTextList (now : Nat) (events : List StepEvent) (text : String) : List StepEvent :=
  match events.getLast? with
  | some (.text c ts) => events.dropLast ++ [.text (c ++ text) ts]
  | _ => events ++ [.text text now]

/-- store.ts appendTextEvent. -/
def appendTextEvent (now : Nat) (s : Store) (step : Nat) (text : String) : Store :=
  let events := (alLookup s.stepEvents step).getD []
  { s with stepEvents := alSet s.stepEvents step (appendTextList now events text) }

/-- store.ts appendToolCallEvent: always appends, never coalesces. -/
def appendToolCallEvent (now : Nat) (s : Store) (step : Nat) (tool : String) (args : Json)
    (toolUseId : Option String) : Store :=
  let events := (alLookup s.stepEvents step).getD []
  { s with stepEvents := alSet s.stepEvents step (events ++ [.tool_call tool toolUseId args now]) }

/-- store.ts clearStepEvents. -/
def clearStepEvents (s : Store) (step : Nat) : Store :=
  { s with stepEvents := alErase s.stepEvents step }

/-- store.ts setStepOutputs: object-spread merge of the new outputs map. -/
def setStepOutputs (s : Store) (outputs : List (Nat × String)) : Store :=
  { s with stepOutputs := alMerge s.stepOutputs outputs }

/-- store.ts setCompletedEvents: wholesale replacement of one step's frozen view. -/
def setCompletedEvents (s : Store) (stepNum : Nat) (events : List ApiStepEvent) : Store :=
  { s with completedEvents := alSet s.completedEvents stepNum events }

/-- store.ts setCompletedToolCalls. -/
def setCompletedToolCalls (s : Store) (stepNum : Nat) (toolCalls : List FallbackToolCall) : Store :=
  { s with completedToolCalls := alSet s.completedToolCalls stepNum toolCalls }

/-- store.ts appendSubagentToolCall: lazily creates the running activity record
for a previously-unseen parent id, then appends the tool call to its list. -/
def appendSubagentToolCall (s : Store) (step : Nat) (parentToolUseId : String)
    (toolCall : SubagentToolCall) : Store :=
  let stepActivities := (alLookup s.stepSubagentActivities step).getD []
  let activity := (alLookup stepActivities parentToolUseId).getD
    { parent_tool_use_id := parentToolUseId, subagent_type := none, events := [],
      tool_calls := [], status := SubStatus.running }
  let updated := alSet stepActivities parentToolUseId
    { activity with tool_calls := activity.tool_calls ++ [toolCall] }
  { s with stepSubagentActivities := alSet s.stepSubagentActivities step updated }

/-- store.ts markSubagentCompleted: no-op when the record does not exist. -/
def markSubagentCompleted (s : Store) (step : Nat) (parentToolUseId : String) : Store :=
  let stepActivities := (alLookup s.stepSubagentActivities step).getD []
  match alLookup stepActivities parentToolUseId with
  | none => s
  | some activity =>
    let updated := alSet stepActivities parentToolUseId
      { activity with status := SubStatus.completed }
    { s with stepSubagentActivities := alSet s.stepSubagentActivities step updated }

/-- store.ts clearStepSubagents. -/
def clearStepSubagents (s : Store) (step : Nat) : Store :=
  { s with stepSubagentActivities := alErase s.stepSubagentActivities step }

/-- store.ts setStepSubagentActivities: wholesale replacement of the index. -/
def setStepSubagentActivities (s : Store)
    (activities : List (Nat × List (String × SubagentActivity))) : Store :=
  { s with stepSubagentActivities := activities }

/-- store.ts addOfflineEvent. -/
def addOfflineEvent (s : Store) (event : OfflineEvent) : Store :=
  { s with offlineEvents := s.offlineEvents ++ [event], showOfflineBanner := true }

/-- store.ts acknowledgeOfflineEvents.  The apiOk flag models whether the
api.acknowledgeEvents call resolved (true) or threw (false); the catch branch
only logs, leaving the state untouched, and a missing session id returns
before calling the API at all. -/
def acknowledgeOfflineEvents (s : Store) (eventIds : List String) (apiOk : Bool) : Store :=
  match s.sessionId with
  | none => s
  | some _ =>
    if apiOk then
      { s with
        offlineEvents := s.offlineEvents.filter (fun e => !(eventIds.contains e.id)),
        showOfflineBanner :=
          decide (0 < (s.offlineEvents.filter (fun e => !(eventIds.contains e.id))).length) }
    else s

/-- Inbound socket frames (types/index.ts WSMessage), restricted to the fields
the store handler reads. -/
inductive WSMessage
  | connected
  | pipeline_started
  | pipeline_resumed
  | step_started (step : Nat)
  | token (step : Nat) (tok : String)
  | step_completed (step : Nat) (next_step : Option Nat) (tokens_used : Nat) (cost : ℚ)
      (output : Option String)
  | pipeline_paused (step : Nat)
  | pipeline_completed
  | pipeline_failed (step : Nat) (error : String)
  | tool_call_started (step : Nat) (tool : String) (tool_use_id : Option String)
      (arguments : Json)
  | subagent_tool_call (step : Nat) (parent_tool_use_id : String) (tool_use_id : String)
      (tool_name : String) (arguments : Json) (timestamp : String)
  | subagent_text (step : Nat) (parent_tool_use_id : String) (text : String)
      (timestamp : String)
  | sync_complete
  | ticket_updated
  | step_skipped (step : Nat) (reason : String) (next_step : Nat)
  | clarification_requested (step : Nat) (clarification_id : String) (question : String)
      (options : List String) (context : Option String)
  | clarification_answered (step : Nat)
  | worktree_session_creating
  | worktree_setup_started
  | worktree_session_ready
  | pipeline_needs_input (input_type : String) (repos : List RepoInfo)
  | worktree_pr_merged
  | worktree_session_cleaned
  | waiting_for_review
  | review_received
  | review_responded
  | pr_approved
  | changes_requested
  | offline_event (event_id : String) (event_type : String) (pipeline_id : String)
      (data : Json) (occurred_at : String)
deriving DecidableEq, Repr

/-- JavaScript truthiness fallback on a string (the empty string is falsy). -/
def jsOrStr (a b : String) : String := if a = "" then b else a

/-- JavaScript truthiness fallback on a nullable number (null and 0 are falsy). -/
def jsOrNat (a : Option Nat) (d : Nat) : Nat :=
  match a with
  | some n => if n = 0 then d else n
  | none => d

/-- store.ts handleWSMessage: the synchronous reducer over inbound socket
frames.  The parameter now models Date.now() at processing time.  Cases that
only trigger REST refetches (sync_complete, ticket_updated, review_received,
review_responded) mutate no synchronous state and are no-ops here, as are the
cases falling into the default branch (connected, subagent_text,
worktree_pr_merged). -/
def handleWSMessage (now : Nat) (s : Store) (m : WSMessage) : Store :=
  match m with
  | .pipeline_started | .pipeline_resumed =>
    { s with currentPipeline := s.currentPipeline.map (fun p => { p with status := .running }),
             worktreeStatus := none, userInputRequest := none }
  | .token step tok => appendTextEvent now s step tok
  | .step_started step =>
    let s := clearStepEvents s step
    let s := clearStepSubagents s step
    let newSteps := s.currentSteps.map (fun st =>
      if st.step_number = step then { st with status := StepStatus.running, error_message := none }
      else if st.step_number < step ∧ st.status = StepStatus.running then
        { st with status := StepStatus.completed }
      else st)
    { s with currentSteps := newSteps, stepOutputs := alErase s.stepOutputs step }
  | .tool_call_started step tool tool_use_id args =>
    appendToolCallEvent now s step tool args tool_use_id
  | .subagent_tool_call step parent tuid tname args ts =>
    appendSubagentToolCall s step parent ⟨tuid, tname, args, ts⟩
  | .step_completed step next_step tokens_used cost output =>
    let streamingEvents := (alLookup s.stepEvents step).getD []
    let apiFormatEvents := streamingEvents.map toApiEvent
    let textContent := flattenText streamingEvents
    let s := clearStepEvents s step
    let newSteps := s.currentSteps.map (fun st =>
      if st.step_number = step then
        { st with status := StepStatus.completed, tokens_used := tokens_used, cost := cost }
      else st)
    let newPipeline := s.currentPipeline.map (fun p =>
      { p with current_step := jsOrNat next_step step,
               total_tokens := p.total_tokens + tokens_used,
               total_cost := p.total_cost + cost })
    { s with currentSteps := newSteps,
             currentPipeline := newPipeline,
             stepOutputs := alSet s.stepOutputs step (jsOrStr textContent (output.getD "")),
             completedEvents := alSet s.completedEvents step apiFormatEvents }
  | .pipeline_completed =>
    { s with currentPipeline := s.currentPipeline.map (fun p => { p with status := .completed }) }
  | .pipeline_paused step =>
    { s with currentPipeline := s.currentPipeline.map (fun p => { p with status := .paused }),
             currentSteps := s.currentSteps.map (fun st =>
               if st.step_number = step then { st with status := StepStatus.paused } else st) }
  | .pipeline_failed step error =>
    { s with currentPipeline := s.currentPipeline.map (fun p => { p with status := .failed }),
             currentSteps := s.currentSteps.map (fun st =>
               if st.step_number = step then
                 { st with status := StepStatus.failed, error_message := some error }
               else st) }
  | .step_skipped step reason next_step =>
    { s with currentSteps := s.currentSteps.map (fun st =>
               if st.step_number = step then
                 { st with status := StepStatus.skipped,
                           error_message := some ("[SKIPPED] " ++ reason) }
               else if st.step_number = next_step then { st with status := StepStatus.running }
               else st),
             currentPipeline := s.currentPipeline.map (fun p =>
               { p with current_step := next_step }) }
  | .worktree_session_creating => { s with worktreeStatus := some "creating" }
  | .worktree_setup_started => { s with worktreeStatus := some "setup" }
  | .worktree_session_ready => { s with worktreeStatus := some "ready", userInputRequest := none }
  | .pipeline_needs_input input_type repos =>
    { s with currentPipeline := s.currentPipeline.map (fun p =>
               { p with status := .needs_user_input }),
             worktreeStatus := some "needs_user_input",
             userInputRequest := some ⟨input_type, repos⟩ }
  | .worktree_session_cleaned => { s with worktreeStatus := some "cleaned" }
  | .clarification_requested step cid q opts ctx =>
    { s with currentPipeline := s.currentPipeline.map (fun p =>
               { p with status := .waiting_for_review }),
             currentSteps := s.currentSteps.map (fun st =>
               if st.step_number = step then { st with status := StepStatus.waiting } else st),
             pendingClarification := some ⟨cid, step, q, opts, ctx⟩ }
  | .clarification_answered step =>
    { s with currentPipeline := s.currentPipeline.map (fun p => { p with status := .running }),
             currentSteps := s.currentSteps.map (fun st =>
               if st.step_number = step then { st with status := StepStatus.running } else st),
             pendingClarification := none }
  | .waiting_for_review =>
    { s with currentPipeline := s.currentPipeline.map (fun p =>
               { p with status := .waiting_for_review }) }
  | .pr_approved =>
    { s with currentPipeline := s.currentPipeline.map (fun p => { p with status := .completed }),
             currentPR := s.currentPR.map (fun pr => { pr with status := PRStatus.approved }) }
  | .changes_requested =>
    { s with currentPipeline := s.currentPipeline.map (fun p =>
               { p with status := .waiting_for_review }) }
  | .offline_event eid etype pid data occ =>
    addOfflineEvent s ⟨eid, etype, pid, data, occ⟩
  | _ => s

/-- Process a timed sequence of socket frames in arrival order. -/
def processSeq (s : Store) (msgs : List (Nat × WSMessage)) : Store :=
  msgs.foldl (fun st tm => handleWSMessage tm.1 st tm.2) s

/-- Step-log display item: the timestamp-free content of one rendered entry. -/
inductive DisplayItem
  | text (content : String)
  | tool (name : String) (args : Json)
deriving DecidableEq, Repr

/-- Display projection of a live event (StepCard.tsx RunningEvent). -/
def displayOfLive : StepEvent → DisplayItem
  | .text c _ => .text c
  | .tool_call t _ a _ => .tool t a

/-- Display projection of a frozen event (StepCard.tsx CompletedEventsView). -/
def displayOfApi : ApiStepEvent → DisplayItem
  | .text c _ => .text c
  | .tool_call t a _ => .tool t a

/-- The event log StepCard.tsx presents for a step record: the live stream
while the step is running (lines 401-413), the frozen completed view when it
is completed, falling back to the flattened text output (lines 436-448), and
no event log in the remaining statuses (placeholder text only).  The frozen
view is modelled in its expanded form: CompletedEventsView folds earlier
entries behind a show-previous toggle but renders the full list when
expanded, so the presented data is the whole frozen list. -/
def displayedForStep (s : Store) (st : PipelineStep) : List DisplayItem :=
  match st.status with
  | .running => ((alLookup s.stepEvents st.step_number).getD []).map displayOfLive
  | .completed =>
    let ce := (alLookup s.completedEvents st.step_number).getD []
    if ce ≠ [] then ce.map displayOfApi
    else
      let out := (alLookup s.stepOutputs st.step_number).getD ""
      if out ≠ "" then [.text out] else []
  | _ => []

/-- The log presented to the user for step number n: the card of the first
step record with that ordinal. -/
def presentedLog (s : Store) (n : Nat) : List DisplayItem :=
  match s.currentSteps.find? (fun st => st.step_number == n) with
  | some st => displayedForStep s st
  | none => []

/-- Prefix-stability relation between successive presented logs: the new log
either appends entries after all the old ones, or grows the final text entry
of the old log by a suffix (token coalescing) and appends after it. -/
def logExtends (old new : List DisplayItem) : Prop :=
  (∃ rest, new = old ++ rest) ∨
  (∃ init c c' rest, old = init ++ [.text c] ∧ new = init ++ [.text (c ++ c')] ++ rest)

/-- Status of the first step record numbered n (the record whose card is
rendered for that ordinal). -/
def statusOf (s : Store) (n : Nat) : Option StepStatus :=
  (s.currentSteps.find? (fun st => st.step_number == n)).map (fun st => st.status)

/-- Frames that reclassify the displayed status of step n away from a
presenting state: a restart of n itself, a start of a later step that demotes
a running n, a completion frame for an n that is not running, a pause, a
failure or a clarification request naming n, a clarification answer naming an
n that is not running (it forces n to running, hiding a frozen view), and a
skip naming n as the skipped or the next step.  Outside these, the presented
log for n is prefix-stable. -/
def reclassifiesStep (s : Store) (n : Nat) : WSMessage → Bool
  | .step_started k => k == n || (decide (n < k) && (statusOf s n == some StepStatus.running))
  | .step_completed k _ _ _ _ => k == n && !(statusOf s n == some StepStatus.running)
  | .pipeline_paused k => k == n
  | .pipeline_failed k _ => k == n
  | .clarification_requested k _ _ _ _ => k == n
  | .clarification_answered k => k == n && !(statusOf s n == some StepStatus.running)
  | .step_skipped k _ next => k == n || next == n
  | _ => false

/-- Persisted tool call inside the batch step-output snapshot (api.ts
StepToolCall).  The wire carries arguments serialized; the JSON.parse applied
on replay is modelled as the identity on the payload. -/
structure StepToolCall where
  tool : String
  arguments : Json
  timestamp : String
  tool_use_id : Option String
deriving DecidableEq, Repr

/-- Batch step-output snapshot entry (api.ts AllStepOutputs). -/
structure RespStepData where
  content : String
  events : List ApiStepEvent
  tool_calls : List StepToolCall
deriving DecidableEq, Repr

/-- Batch subagent tool-call row (api.ts SubagentToolCallResponse). -/
structure SubagentTCResp where
  step_number : Nat
  parent_tool_use_id : String
  tool_use_id : String
  tool_name : String
  arguments : Json
  created_at : String
deriving DecidableEq, Repr

/-- The record one iteration of the subagent grouping loop stores: the
existing record for this step and parent (lazily created with status
completed, since history rows are already done) with the call pushed into
both the events and the tool_calls lists. -/
def groupAct (g : List (Nat × List (String × SubagentActivity)))
    (tc : SubagentTCResp) : SubagentActivity :=
  let stepG := (alLookup g tc.step_number).getD []
  let act := (alLookup stepG tc.parent_tool_use_id).getD
    { parent_tool_use_id := tc.parent_tool_use_id, subagent_type := none, events := [],
      tool_calls := [], status := SubStatus.completed }
  { act with
    events := act.events ++ [SubagentEvent.tool_call tc.tool_use_id tc.tool_name tc.arguments tc.created_at],
    tool_calls := act.tool_calls ++ [⟨tc.tool_use_id, tc.tool_name, tc.arguments, tc.created_at⟩] }

/-- One iteration of the subagent grouping loop in loadStepOutputs
(TicketDetail.tsx lines 169-200): lazily create the per-step and per-parent
records with status completed, then push the call into both the events and the
tool_calls lists. -/
def groupSubagentStep (g : List (Nat × List (String × SubagentActivity)))
    (tc : SubagentTCResp) : List (Nat × List (String × SubagentActivity)) :=
  let stepG := (alLookup g tc.step_number).getD []
  alSet g tc.step_number (alSet stepG tc.parent_tool_use_id (groupAct g tc))

/-- One iteration of the per-step snapshot loop of loadStepOutputs
(TicketDetail.tsx lines 137-159): collect a non-empty flat output, then either
replay persisted tool calls into the running step's live log, or install the
structured completed-events list, or install the legacy tool-call fallback. -/
def loadStepFold (now : Nat) (runningStepNum : Option Nat)
    (acc : List (Nat × String) × Store) (p : Nat × RespStepData) :
    List (Nat × String) × Store :=
  let outputs := acc.1
  let st := acc.2
  let stepNum := p.1
  let stepData := p.2
  let outputs := if stepData.content ≠ "" then alSet outputs stepNum stepData.content
    else outputs
  let st :=
    if runningStepNum = some stepNum ∧ stepData.tool_calls ≠ [] then
      stepData.tool_calls.foldl
        (fun st2 tc => appendToolCallEvent now st2 stepNum tc.tool tc.arguments tc.tool_use_id)
        st
    else if stepData.events ≠ [] then setCompletedEvents st stepNum stepData.events
    else if stepData.tool_calls ≠ [] then
      setCompletedToolCalls st stepNum
        (stepData.tool_calls.map fun tc => ⟨tc.tool, tc.arguments⟩)
    else st
  (outputs, st)

/-- TicketDetail.tsx loadStepOutputs on its success path: per snapshot entry,
replay tool calls into the live log of the running step, otherwise install the
structured completed-events list, otherwise the legacy tool-call fallback;
collect non-empty flat outputs and merge them in one call; finally group the
subagent history and install it wholesale when non-empty.  A fetch that throws
leaves the corresponding part of the state untouched and is not modelled. -/
def loadStepOutputs (now : Nat) (respSteps : List (Nat × RespStepData))
    (runningStepNum : Option Nat) (subagentToolCalls : List SubagentTCResp)
    (s : Store) : Store :=
  let acc := respSteps.foldl (loadStepFold now runningStepNum) ([], s)
  let s1 := if acc.1 ≠ [] then setStepOutputs acc.2 acc.1 else acc.2
  let grouped := subagentToolCalls.foldl groupSubagentStep []
  if grouped ≠ [] then setStepSubagentActivities s1 grouped else s1

/-- True when no snapshot entry triggers the running-step tool-call replay of
loadStepOutputs rule 1 (either no running step was reported, or the entry
named as running has no persisted tool calls). -/
def noReplay (r : Option Nat) (respSteps : List (Nat × RespStepData)) : Bool :=
  respSteps.all (fun p => !(decide (r = some p.1) && decide (p.2.tool_calls ≠ [])))

/-- First-of on optional values: the first one when present, else the second. -/
def ovOr {α : Type} (a b : Option α) : Option α :=
  match a with
  | some v => some v
  | none => b

/-- The flat output the snapshot loop leaves for step k (later entries win). -/
def outVal (k : Nat) : List (Nat × RespStepData) → Option String
  | [] => none
  | p :: rest =>
    ovOr (outVal k rest)
      (if p.2.content ≠ "" ∧ p.1 = k then some p.2.content else none)

/-- The completed-events list the snapshot loop installs for step k under
running step r (later entries win). -/
def ceVal (r : Option Nat) (k : Nat) : List (Nat × RespStepData) → Option (List ApiStepEvent)
  | [] => none
  | p :: rest =>
    ovOr (ceVal r k rest)
      (if ¬(r = some p.1 ∧ p.2.tool_calls ≠ []) ∧ p.2.events ≠ [] ∧ p.1 = k
       then some p.2.events else none)

/-- The legacy tool-call fallback the snapshot loop installs for step k under
running step r (later entries win). -/
def ctcVal (r : Option Nat) (k : Nat) :
    List (Nat × RespStepData) → Option (List FallbackToolCall)
  | [] => none
  | p :: rest =>
    ovOr (ctcVal r k rest)
      (if ¬(r = some p.1 ∧ p.2.tool_calls ≠ []) ∧ ¬(p.2.events ≠ []) ∧
          p.2.tool_calls ≠ [] ∧ p.1 = k
       then some (p.2.tool_calls.map fun tc => ⟨tc.tool, tc.arguments⟩) else none)

/-- Observational equality of two store states: JavaScript objects are state
compared key by key, so the record-valued fields are compared by lookup. -/
def StoreObsEq (a b : Store) : Prop :=
  a.sessionId = b.sessionId ∧ a.currentPipeline = b.currentPipeline ∧
  a.currentSteps = b.currentSteps ∧
  a.stepEvents = b.stepEvents ∧
  (∀ k, alLookup a.stepOutputs k = alLookup b.stepOutputs k) ∧
  (∀ k, alLookup a.completedEvents k = alLookup b.completedEvents k) ∧
  (∀ k, alLookup a.completedToolCalls k = alLookup b.completedToolCalls k) ∧
  a.stepSubagentActivities = b.stepSubagentActivities ∧
  a.userInputRequest = b.userInputRequest ∧ a.worktreeStatus = b.worktreeStatus ∧
  a.pendingClarification = b.pendingClarification ∧ a.currentPR = b.currentPR ∧
  a.offlineEvents = b.offlineEvents ∧ a.showOfflineBanner = b.showOfflineBanner

/-- A per-step live-stream input item: a token fragment or an interleaved
tool-call start. -/
inductive TokItem
  | tok (payload : String)
  | tool (name : String) (tool_use_id : Option String) (args : Json)
deriving DecidableEq, Repr

/-- The socket frame for step n carrying a token item. -/
def tokMsg (n : Nat) : TokItem → WSMessage
  | .tok p => .token n p
  | .tool name id args => .tool_call_started n name id args

/-- Concatenation of the token payloads in arrival order. -/
def tokConcat (items : List TokItem) : String :=
  String.join (items.filterMap fun i => match i with | .tok p => some p | _ => none)

/-- A step record with the given ordinal and status. -/
def exStep (n : Nat) (st : StepStatus) : PipelineStep :=
  ⟨n, "step", st, 0, 0, none⟩

/-- A pipeline record with some accumulated totals. -/
def exPipeline : Pipeline := ⟨"TK-1", PipelineStatus.running, 1, 100, 1/4⟩

/-- An offline event sample. -/
def exOffline : OfflineEvent := ⟨"ev1", "step_completed", "p1", Json.empty, "t"⟩

/-- A store with a session and one queued offline event. -/
def exStoreAck : Store :=
  { initStore with sessionId := some "sess", offlineEvents := [exOffline] }

/-- A store with a running pipeline, step 1 running with one streamed text
entry, and step 2 pending. -/
def exStoreRun : Store :=
  { initStore with
    currentPipeline := some exPipeline,
    currentSteps := [exStep 1 StepStatus.running, exStep 2 StepStatus.pending],
    stepEvents := [(1, [StepEvent.text "hi" 5])] }

/-- A snapshot with one persisted tool call for step 1. -/
def exRespSteps : List (Nat × RespStepData) :=
  [(1, ⟨"", [], [⟨"Bash", Json.empty, "t0", some "tu1"⟩]⟩)]

/-- The event sequence of the basic step lifecycle scenario: start step N,
stream two token fragments, start one tool call, complete with 10 tokens and
cost 1/100. -/
def c1Msgs (N t1 t2 t3 t4 t5 : Nat) (next : Option Nat) (outp : Option String) :
    List (Nat × WSMessage) :=
  [(t1, WSMessage.step_started N), (t2, WSMessage.token N "Hel"),
   (t3, WSMessage.token N "lo"),
   (t4, WSMessage.tool_call_started N "Search" none Json.empty),
   (t5, WSMessage.step_completed N next 10 (1/100) outp)]

/-- The store after processing the basic step lifecycle scenario. -/
def c1Result (s : Store) (N t1 t2 t3 t4 t5 : Nat) (next : Option Nat)
    (outp : Option String) : Store :=
  processSeq s (c1Msgs N t1 t2 t3 t4 t5 next outp)

/-- The record value appendSubagentToolCall leaves under the parent id: the
previous record if one existed (otherwise a fresh running one) with the call
appended to its list. -/
def appendedActivity (s : Store) (step : Nat) (p : String)
    (tc : SubagentToolCall) : SubagentActivity :=
  let old := (alLookup ((alLookup s.stepSubagentActivities step).getD []) p).getD
    { parent_tool_use_id := p, subagent_type := none, events := [],
      tool_calls := [], status := SubStatus.running }
  { old with tool_calls := old.tool_calls ++ [tc] }

/-- A snapshot with one completed step carrying a structured event list and a
flat output, and no running-step tool calls. -/
def exRespOk : List (Nat × RespStepData) :=
  [(1, ⟨"out", [ApiStepEvent.text "x" "t0"], []⟩)]

/-- One subagent history row. -/
def exSubs : List SubagentTCResp := [⟨1, "p1", "tu1", "Task", Json.empty, "t0"⟩]

/-- A subagent record that has already been marked completed. -/
def exCompletedActivity : SubagentActivity :=
  { parent_tool_use_id := "p", subagent_type := none, events := [],
    tool_calls := [], status := SubStatus.completed }

/-- A store whose subagent index holds one completed record under step 1. -/
def exStoreSub : Store :=
  { initStore with stepSubagentActivities := [(1, [("p", exCompletedActivity)])] }

/-! Basic lemmas about the JavaScript-object operations. -/

theorem alLookup_append {K V : Type} [DecidableEq K] (m1 m2 : List (K × V)) (k : K) :
    alLookup (m1 ++ m2) k = (alLookup m1 k).orElse (fun _ => alLookup m2 k) := by
  induction m1 with
  | nil => simp [alLookup]
  | cons p rest ih =>
    by_cases h : p.1 = k
    · simp [alLookup, h]
    · simp [alLookup, h, ih]

theorem alLookup_map_replace_self {K V : Type} [DecidableEq K]
    (m : List (K × V)) (k : K) (v : V) (h : (alLookup m k).isSome) :
    alLookup (m.map (fun p => if p.1 = k then (k, v) else p)) k = some v := by
  induction m with
  | nil => simp [alLookup] at h
  | cons p rest ih =>
    by_cases hpk : p.1 = k
    · simp [alLookup, hpk]
    · simp [alLookup, hpk] at h ⊢
      exact ih h

theorem alLookup_map_replace_ne {K V : Type} [DecidableEq K]
    (m : List (K × V)) (k k' : K) (v : V) (h : k' ≠ k) :
    alLookup (m.map (fun p => if p.1 = k then (k, v) else p)) k' = alLookup m k' := by
  induction m with
  | nil => simp
  | cons p rest ih =>
    by_cases hpk : p.1 = k
    · have : k ≠ k' := fun hh => h hh.symm
      simp [alLookup, hpk, this, ih]
    · by_cases hpk' : p.1 = k'
      · simp [alLookup, hpk, hpk', h]
      · simp [alLookup, hpk, hpk', ih]

theorem alLookup_alSet_self {K V : Type} [DecidableEq K] (m : List (K × V)) (k : K) (v : V) :
    alLookup (alSet m k v) k = some v := by
  unfold alSet
  split
  · exact alLookup_map_replace_self m k v (by assumption)
  · rw [alLookup_append]
    rename_i h
    rcases hmk : alLookup m k with _ | w
    · simp [alLookup]
    · rw [hmk] at h; simp at h

theorem alLookup_alSet_ne {K V : Type} [DecidableEq K]
    (m : List (K × V)) (k k' : K) (v : V) (h : k' ≠ k) :
    alLookup (alSet m k v) k' = alLookup m k' := by
  unfold alSet
  split
  · exact alLookup_map_replace_ne m k k' v h
  · rw [alLookup_append]
    rcases hmk : alLookup m k' with _ | w
    · simp [alLookup, hmk, Ne.symm h]
    · simp [hmk]

theorem alLookup_alErase_self {K V : Type} [DecidableEq K] (m : List (K × V)) (k : K) :
    alLookup (alErase m k) k = none := by
  induction m with
  | nil => rfl
  | cons p rest ih =>
    by_cases hpk : p.1 = k
    · simpa [alErase, List.filter_cons, hpk] using ih
    · simpa [alErase, List.filter_cons, hpk, alLookup] using ih

theorem alLookup_alErase_ne {K V : Type} [DecidableEq K]
    (m : List (K × V)) (k k' : K) (h : k' ≠ k) :
    alLookup (alErase m k) k' = alLookup m k' := by
  induction m with
  | nil => rfl
  | cons p rest ih =>
    by_cases hpk : p.1 = k
    · rw [show alErase (p :: rest) k = alErase rest k by
        simp [alErase, List.filter_cons, hpk]]
      rw [ih]
      have hne : p.1 ≠ k' := fun hh => h (hh.symm.trans hpk)
      simp [alLookup, hne]
    · rw [show alErase (p :: rest) k = p :: alErase rest k by
        simp [alErase, List.filter_cons, hpk]]
      by_cases hpk' : p.1 = k'
      · simp [alLookup, hpk']
      · simp [alLookup, hpk', ih]

theorem alLookup_filter_keydep {K V : Type} [DecidableEq K]
    (adds : List (K × V)) (q : K → Bool) (k : K) :
    alLookup (adds.filter (fun p => q p.1)) k =
      if q k then alLookup adds k else none := by
  induction adds with
  | nil => simp [alLookup]
  | cons p rest ih =>
    by_cases hpk : p.1 = k
    · subst hpk
      by_cases hq : q p.1
      · simp [alLookup, hq]
      · simp [alLookup, hq, ih]
    · by_cases hq : q p.1
      · simp [alLookup, hq, hpk, ih]
      · simp [alLookup, hq, hpk, ih]

theorem alLookup_alMerge {K V : Type} [DecidableEq K]
    (m adds : List (K × V)) (k : K) :
    alLookup (alMerge m adds) k = (alLookup adds k).orElse (fun _ => alLookup m k) := by
  unfold alMerge
  rw [alLookup_append]
  have hmap : alLookup
      (m.map (fun p => match alLookup adds p.1 with | some v => (p.1, v) | none => p)) k =
      (alLookup m k).map (fun old => (alLookup adds k).getD old) := by
    induction m with
    | nil => simp [alLookup]
    | cons p rest ih =>
      by_cases hpk : p.1 = k
      · subst hpk
        rcases h : alLookup adds p.1 with _ | w <;> simp [alLookup, h]
      · rcases h : alLookup adds p.1 with _ | w <;>
          simp [alLookup, h, hpk, ih]
  rw [hmap,
    alLookup_filter_keydep adds (fun x => (alLookup m x).isNone) k]
  rcases hm : alLookup m k with _ | old <;> rcases ha : alLookup adds k with _ | v <;> simp

/-! Helper lemmas about strings, lists and the display projections. -/

theorem foldlAppendAcc (t : List String) :
    ∀ x y : String, t.foldl (· ++ ·) (x ++ y) = x ++ t.foldl (· ++ ·) y := by
  induction t with
  | nil => intro x y; rfl
  | cons a t ih =>
    intro x y
    show t.foldl (· ++ ·) (x ++ y ++ a) = _
    rw [String.append_assoc, ih]
    rfl

theorem joinCons (a : String) (t : List String) :
    String.join (a :: t) = a ++ String.join t := by
  show t.foldl (· ++ ·) a = a ++ t.foldl (· ++ ·) ""
  conv_lhs => rw [show a = a ++ "" by rw [String.append_empty]]
  exact foldlAppendAcc t a ""

theorem joinAppend (l1 l2 : List String) :
    String.join (l1 ++ l2) = String.join l1 ++ String.join l2 := by
  induction l1 with
  | nil => rw [List.nil_append, show String.join [] = "" from rfl, String.empty_append]
  | cons a t ih =>
    rw [List.cons_append, joinCons, ih, joinCons, String.append_assoc]

theorem flattenText_append (A B : List StepEvent) :
    flattenText (A ++ B) = flattenText A ++ flattenText B := by
  unfold flattenText
  rw [List.filter_append, List.map_append, joinAppend]

theorem flattenText_single_text (c : String) (ts : Nat) :
    flattenText [StepEvent.text c ts] = c := by
  show String.join [c] = c
  rw [joinCons]
  exact String.append_empty c

theorem flattenText_single_tool (tool : String) (id : Option String) (args : Json) (ts : Nat) :
    flattenText [StepEvent.tool_call tool id args ts] = "" := rfl

theorem getLast?_decomp {α : Type} (L : List α) (a : α) (h : L.getLast? = some a) :
    L = L.dropLast ++ [a] := by
  have hne : L ≠ [] := by
    intro e
    subst e
    simp at h
  have h2 := List.getLast?_eq_getLast L hne
  rw [h2] at h
  have h3 : a = L.getLast hne := (Option.some.injEq _ _).mp h.symm
  rw [h3]
  exact (List.dropLast_append_getLast hne).symm

theorem flattenText_appendTextList (now : Nat) (L : List StepEvent) (t : String) :
    flattenText (appendTextList now L t) = flattenText L ++ t := by
  rcases hL : L.getLast? with _ | ev
  · simp only [appendTextList, hL]
    rw [flattenText_append, flattenText_single_text]
  · cases ev with
    | text c ts =>
      simp only [appendTextList, hL]
      have hdec := getLast?_decomp L _ hL
      conv_rhs => rw [hdec]
      rw [flattenText_append, flattenText_append, flattenText_single_text,
        flattenText_single_text, String.append_assoc]
    | tool_call tool id args ts =>
      simp only [appendTextList, hL]
      rw [flattenText_append, flattenText_single_text]

theorem flattenText_append_tool (L : List StepEvent) (tool : String) (id : Option String)
    (args : Json) (ts : Nat) :
    flattenText (L ++ [StepEvent.tool_call tool id args ts]) = flattenText L := by
  rw [flattenText_append, flattenText_single_tool, String.append_empty]

theorem find?_map_keyfix (l : List PipelineStep) (f : PipelineStep → PipelineStep)
    (hf : ∀ st, (f st).step_number = st.step_number) (n : Nat) :
    (l.map f).find? (fun st => st.step_number == n) =
      (l.find? (fun st => st.step_number == n)).map f := by
  induction l with
  | nil => rfl
  | cons st rest ih =>
    simp only [List.map_cons, List.find?_cons, hf st]
    cases h : (st.step_number == n) <;> simp [h, ih]

theorem processSeq_cons (s : Store) (t : Nat) (m : WSMessage) (rest : List (Nat × WSMessage)) :
    processSeq s ((t, m) :: rest) = processSeq (handleWSMessage t s m) rest := rfl

/-! Claim C8: offline-event acknowledgement semantics. -/

/-- C8: acknowledged events are removed from the local queue only after the
server call succeeds; a thrown call (or a missing session id, which skips the
call) leaves the whole state exactly as it was, so the events stay visible
for retry.  The queue length is non-increasing under acknowledgement, and
receipt of an offline-event notification appends exactly the new event. -/
theorem C8_ack_only_after_success (s : Store) (eventIds : List String) (e : OfflineEvent) :
    acknowledgeOfflineEvents s eventIds false = s ∧
    (s.sessionId = none → acknowledgeOfflineEvents s eventIds true = s) ∧
    (s.sessionId ≠ none →
      (acknowledgeOfflineEvents s eventIds true).offlineEvents =
        s.offlineEvents.filter (fun ev => !(eventIds.contains ev.id))) ∧
    (acknowledgeOfflineEvents s eventIds true).offlineEvents.length ≤
      s.offlineEvents.length ∧
    (addOfflineEvent s e).offlineEvents = s.offlineEvents ++ [e] := by
  refine ⟨?_, ?_, ?_, ?_, rfl⟩
  · unfold acknowledgeOfflineEvents
    cases hs : s.sessionId <;> simp
  · intro h
    unfold acknowledgeOfflineEvents
    rw [h]
  · intro h
    cases hs : s.sessionId with
    | none => exact absurd hs h
    | some sid =>
      unfold acknowledgeOfflineEvents
      rw [hs]
      simp
  · cases hs : s.sessionId with
    | none =>
      unfold acknowledgeOfflineEvents
      rw [hs]
    | some sid =>
      unfold acknowledgeOfflineEvents
      rw [hs]
      simp
      exact List.length_filter_le _ _

/-- Witness for C8: at a concrete store with a session and one queued event,
a failed call leaves the queue, a successful call for that id empties it. -/
theorem C8_ack_only_after_success_witness :
    acknowledgeOfflineEvents exStoreAck ["ev1"] false = exStoreAck ∧
    (exStoreAck.sessionId ≠ none →
      (acknowledgeOfflineEvents exStoreAck ["ev1"] true).offlineEvents =
        exStoreAck.offlineEvents.filter (fun ev => !(["ev1"].contains ev.id))) := by
  have h := C8_ack_only_after_success exStoreAck ["ev1"] exOffline
  exact ⟨h.1, h.2.2.1⟩

/-! Store-level helper lemmas about single message effects. -/

theorem stepEvents_token (now : Nat) (s : Store) (k : Nat) (tok : String) :
    alLookup (handleWSMessage now s (WSMessage.token k tok)).stepEvents k =
      some (appendTextList now ((alLookup s.stepEvents k).getD []) tok) := by
  show alLookup (alSet s.stepEvents k _) k = _
  exact alLookup_alSet_self _ _ _

theorem stepEvents_tool_call (now : Nat) (s : Store) (k : Nat) (tool : String)
    (id : Option String) (args : Json) :
    alLookup (handleWSMessage now s (WSMessage.tool_call_started k tool id args)).stepEvents k =
      some (((alLookup s.stepEvents k).getD []) ++ [StepEvent.tool_call tool id args now]) := by
  show alLookup (alSet s.stepEvents k _) k = _
  exact alLookup_alSet_self _ _ _

/-! Claim C7: subagent record creation and completion. -/

/-- C7: the first subagent tool call for a previously-unseen parent id creates
a running SubagentActivity containing exactly that call; a terminal signal for
an existing record sets its status to completed while leaving the whole rest
of the record, in particular its collected call list, unchanged. -/
theorem C7_subagent_create_then_complete (s : Store) (step : Nat) (p : String)
    (tc : SubagentToolCall)
    (hnew : alLookup ((alLookup s.stepSubagentActivities step).getD []) p = none) :
    (alLookup ((alLookup (appendSubagentToolCall s step p tc).stepSubagentActivities
        step).getD []) p = some ⟨p, none, [], [tc], SubStatus.running⟩) ∧
    (∀ (s2 : Store) (a : SubagentActivity),
      alLookup ((alLookup s2.stepSubagentActivities step).getD []) p = some a →
      alLookup ((alLookup (markSubagentCompleted s2 step p).stepSubagentActivities
          step).getD []) p = some { a with status := SubStatus.completed }) := by
  constructor
  · simp [appendSubagentToolCall, hnew, alLookup_alSet_self]
  · intro s2 a ha
    simp [markSubagentCompleted, ha, alLookup_alSet_self]

/-- Witness for C7 at the empty store with parent id abc. -/
theorem C7_subagent_create_then_complete_witness :
    alLookup ((alLookup initStore.stepSubagentActivities 1).getD []) "abc" = none ∧
    alLookup ((alLookup (appendSubagentToolCall initStore 1 "abc"
        ⟨"tu1", "Bash", Json.empty, "t1"⟩).stepSubagentActivities 1).getD []) "abc" =
      some ⟨"abc", none, [], [⟨"tu1", "Bash", Json.empty, "t1"⟩], SubStatus.running⟩ :=
  ⟨rfl, (C7_subagent_create_then_complete initStore 1 "abc"
    ⟨"tu1", "Bash", Json.empty, "t1"⟩ rfl).1⟩

/-! Claim C9: pipeline_failed is a pure status-and-error update. -/

/-- C9: a pipeline_failed frame for step N sets the pipeline status to failed
and every step record numbered N to failed with the error text recorded, while
the live event logs, frozen completed views, flattened outputs, legacy tool
calls and the subagent index of every step are exactly unchanged, and other
step records are untouched. -/
theorem C9_pipeline_failed_frame (now : Nat) (s : Store) (N : Nat) (err : String) :
    (handleWSMessage now s (WSMessage.pipeline_failed N err)).stepEvents = s.stepEvents ∧
    (handleWSMessage now s (WSMessage.pipeline_failed N err)).completedEvents =
      s.completedEvents ∧
    (handleWSMessage now s (WSMessage.pipeline_failed N err)).stepOutputs = s.stepOutputs ∧
    (handleWSMessage now s (WSMessage.pipeline_failed N err)).completedToolCalls =
      s.completedToolCalls ∧
    (handleWSMessage now s (WSMessage.pipeline_failed N err)).stepSubagentActivities =
      s.stepSubagentActivities ∧
    (handleWSMessage now s (WSMessage.pipeline_failed N err)).currentPipeline =
      s.currentPipeline.map (fun p => { p with status := PipelineStatus.failed }) ∧
    (∀ i : Nat, (handleWSMessage now s (WSMessage.pipeline_failed N err)).currentSteps[i]? =
      (s.currentSteps[i]?).map (fun st =>
        if st.step_number = N then
          { st with status := StepStatus.failed, error_message := some err }
        else st)) := by
  refine ⟨rfl, rfl, rfl, rfl, rfl, rfl, fun i => ?_⟩
  show (s.currentSteps.map _)[i]? = _
  rw [List.getElem?_map]

/-! Claim C10: freezing a step drops the tool-use identifier. -/

/-- C10: at step_completed the frozen view installed for N is the live log
mapped through toApiEvent, and toApiEvent sends a tool call to a record
carrying only tool name, arguments and serialized timestamp — it is constant
in the tool_use_id, so a frozen tool call can no longer be associated with
subagent activity by toolUseId lookup. -/
theorem C10_freeze_drops_tool_use_id (now : Nat) (s : Store) (N : Nat)
    (next : Option Nat) (tu : Nat) (c : ℚ) (outp : Option String) :
    alLookup (handleWSMessage now s
        (WSMessage.step_completed N next tu c outp)).completedEvents N =
      some (((alLookup s.stepEvents N).getD []).map toApiEvent) ∧
    (∀ tool id id' args ts,
      toApiEvent (StepEvent.tool_call tool id args ts) =
        toApiEvent (StepEvent.tool_call tool id' args ts)) ∧
    (∀ tool id args ts,
      toApiEvent (StepEvent.tool_call tool id args ts) =
        ApiStepEvent.tool_call tool args (isoString ts)) := by
  refine ⟨?_, fun tool id id' args ts => rfl, fun tool id args ts => rfl⟩
  show alLookup (alSet s.completedEvents N _) N = _
  exact alLookup_alSet_self _ _ _

/-! Claim C6: which subagent event kinds the tracker handles. -/

/-- C6 counterexample: a subagent_text frame falls into the default case of
handleWSMessage, so processing it leaves the store - in particular the
subagent index, which the claim requires to gain a record keyed by the parent
id abc holding the event - completely unchanged and still empty. -/
theorem C6_subagent_text_dropped_counterexample :
    handleWSMessage 0 initStore (WSMessage.subagent_text 1 "abc" "hello" "t0") = initStore ∧
    (handleWSMessage 0 initStore
        (WSMessage.subagent_text 1 "abc" "hello" "t0")).stepSubagentActivities = [] :=
  ⟨rfl, rfl⟩

theorem appendedActivity_status (s : Store) (step : Nat) (p : String)
    (tc : SubagentToolCall) :
    (appendedActivity s step p tc).status =
      ((alLookup ((alLookup s.stepSubagentActivities step).getD []) p).getD
        { parent_tool_use_id := p, subagent_type := none, events := [],
          tool_calls := [], status := SubStatus.running }).status := rfl

theorem groupAct_status (g : List (Nat × List (String × SubagentActivity)))
    (tc : SubagentTCResp) :
    (groupAct g tc).status =
      ((alLookup ((alLookup g tc.step_number).getD []) tc.parent_tool_use_id).getD
        { parent_tool_use_id := tc.parent_tool_use_id, subagent_type := none, events := [],
          tool_calls := [], status := SubStatus.completed }).status := rfl

/-- No live socket frame installs a completed subagent record: any record that
is completed after handleWSMessage was already present and completed before.
The only frames that touch the subagent index are step_started (which erases
a step's records) and subagent_tool_call (which appends a call, creating the
record with status running and otherwise preserving the stored status). -/
theorem handle_ssa_no_new_completed (now : Nat) (s : Store) (m : WSMessage) (k : Nat)
    (q : String) (a' : SubagentActivity)
    (h : alLookup ((alLookup (handleWSMessage now s m).stepSubagentActivities k).getD [])
      q = some a')
    (hc : a'.status = SubStatus.completed) :
    ∃ a, alLookup ((alLookup s.stepSubagentActivities k).getD []) q = some a ∧
      a.status = SubStatus.completed := by
  cases m <;> try exact ⟨a', h, hc⟩
  case step_started j =>
    have hssa : (handleWSMessage now s (WSMessage.step_started j)).stepSubagentActivities =
        alErase s.stepSubagentActivities j := rfl
    rw [hssa] at h
    by_cases hkj : k = j
    · subst hkj
      rw [alLookup_alErase_self] at h
      simp [alLookup] at h
    · rw [alLookup_alErase_ne _ _ _ hkj] at h
      exact ⟨a', h, hc⟩
  case subagent_tool_call j pp tuid2 tname2 args2 ts2 =>
    have hssa : (handleWSMessage now s
        (WSMessage.subagent_tool_call j pp tuid2 tname2 args2 ts2)).stepSubagentActivities =
        alSet s.stepSubagentActivities j
          (alSet ((alLookup s.stepSubagentActivities j).getD []) pp
            (appendedActivity s j pp ⟨tuid2, tname2, args2, ts2⟩)) := rfl
    rw [hssa] at h
    by_cases hkj : k = j
    · subst hkj
      rw [alLookup_alSet_self, Option.getD_some] at h
      by_cases hq : q = pp
      · subst hq
        rw [alLookup_alSet_self] at h
        have ha : appendedActivity s k q ⟨tuid2, tname2, args2, ts2⟩ = a' :=
          Option.some_inj.mp h
        rw [← ha, appendedActivity_status] at hc
        rcases hl : alLookup ((alLookup s.stepSubagentActivities k).getD []) q with _ | a0
        · rw [hl] at hc
          simp at hc
        · rw [hl] at hc
          exact ⟨a0, rfl, hc⟩
      · rw [alLookup_alSet_ne _ _ _ _ hq] at h
        exact ⟨a', h, hc⟩
    · rw [alLookup_alSet_ne _ _ _ _ hkj] at h
      exact ⟨a', h, hc⟩

/-- Every record the history bulk-load grouping produces is completed: the
lazily created record starts as completed and one grouping step preserves the
stored status, so folding groupSubagentStep keeps the completed-only
invariant. -/
theorem groupFold_completed (subs : List SubagentTCResp) :
    ∀ (g : List (Nat × List (String × SubagentActivity))),
    (∀ k q a, alLookup ((alLookup g k).getD []) q = some a →
      a.status = SubStatus.completed) →
    ∀ k q a, alLookup ((alLookup (subs.foldl groupSubagentStep g) k).getD []) q = some a →
      a.status = SubStatus.completed := by
  induction subs with
  | nil => intro g hg k q a h; exact hg k q a h
  | cons tc rest ih =>
    intro g hg k q a h
    refine ih (groupSubagentStep g tc) ?_ k q a h
    intro k2 q2 a2 h2
    have hgs : groupSubagentStep g tc = alSet g tc.step_number
        (alSet ((alLookup g tc.step_number).getD []) tc.parent_tool_use_id
          (groupAct g tc)) := rfl
    rw [hgs] at h2
    by_cases hk2 : k2 = tc.step_number
    · subst hk2
      rw [alLookup_alSet_self, Option.getD_some] at h2
      by_cases hq2 : q2 = tc.parent_tool_use_id
      · subst hq2
        rw [alLookup_alSet_self] at h2
        have ha : groupAct g tc = a2 := Option.some_inj.mp h2
        rw [← ha, groupAct_status]
        rcases hl : alLookup ((alLookup g tc.step_number).getD [])
            tc.parent_tool_use_id with _ | a0
        · rfl
        · exact hg _ _ _ hl
      · rw [alLookup_alSet_ne _ _ _ _ hq2] at h2
        exact hg _ _ _ h2
    · rw [alLookup_alSet_ne _ _ _ _ hk2] at h2
      exact hg _ _ _ h2

/-- C6 amended: the tracker handles only the subagent_tool_call kind: such a
frame appends the call to the record keyed by its parent tool-use id (lazily
created with status running), while a subagent_text frame is discarded by the
default case.  Records become completed only through markSubagentCompleted or
the history bulk-load grouping, never through a live frame: any record that is
completed after processing any frame was already completed before, every
record the bulk-load grouping produces is completed, and markSubagentCompleted
does flip an existing record to completed. -/
theorem C6_subagent_tracker_amended (s : Store) (step : Nat) (p tuid tname : String)
    (args : Json) (ts : String) (txt : String) (now : Nat) :
    (alLookup ((alLookup (handleWSMessage now s
        (WSMessage.subagent_tool_call step p tuid tname args ts)).stepSubagentActivities
        step).getD []) p =
      some (appendedActivity s step p
        { tool_use_id := tuid, tool_name := tname, arguments := args, timestamp := ts })) ∧
    handleWSMessage now s (WSMessage.subagent_text step p txt ts) = s ∧
    (∀ (m : WSMessage) (k : Nat) (q : String) (a' : SubagentActivity),
      alLookup ((alLookup (handleWSMessage now s m).stepSubagentActivities k).getD []) q =
        some a' →
      a'.status = SubStatus.completed →
      ∃ a, alLookup ((alLookup s.stepSubagentActivities k).getD []) q = some a ∧
        a.status = SubStatus.completed) ∧
    (∀ (subs : List SubagentTCResp) (k : Nat) (q : String) (a : SubagentActivity),
      alLookup ((alLookup (subs.foldl groupSubagentStep []) k).getD []) q = some a →
      a.status = SubStatus.completed) ∧
    (∀ (a : SubagentActivity),
      alLookup ((alLookup s.stepSubagentActivities step).getD []) p = some a →
      alLookup ((alLookup (markSubagentCompleted s step p).stepSubagentActivities
          step).getD []) p =
        some { a with status := SubStatus.completed }) := by
  refine ⟨?_, rfl, ?_, ?_, ?_⟩
  · simp only [handleWSMessage]
    simp [appendSubagentToolCall, appendedActivity, alLookup_alSet_self]
  · intro m k q a' h hc
    exact handle_ssa_no_new_completed now s m k q a' h hc
  · intro subs k q a h
    refine groupFold_completed subs [] ?_ k q a h
    intro k2 q2 a2 h2
    simp [alLookup] at h2
  · intro a ha
    simp [markSubagentCompleted, ha, alLookup_alSet_self]

/-- C6 witness: on a store holding one completed record under step 1, a token
frame for step 2 leaves a completed record, and the amended theorem traces it
back to a record that was already completed. -/
theorem C6_subagent_tracker_amended_witness :
    (alLookup ((alLookup (handleWSMessage 0 exStoreSub
        (WSMessage.token 2 "x")).stepSubagentActivities 1).getD []) "p" =
      some exCompletedActivity) ∧
    exCompletedActivity.status = SubStatus.completed ∧
    (∃ a, alLookup ((alLookup exStoreSub.stepSubagentActivities 1).getD []) "p" = some a ∧
      a.status = SubStatus.completed) :=
  ⟨by decide, rfl,
    (C6_subagent_tracker_amended exStoreSub 1 "p" "tu" "T" Json.empty "t" "x" 0).2.2.1
      (WSMessage.token 2 "x") 1 "p" exCompletedActivity (by decide) rfl⟩

/-! Claim C3: step_started semantics. -/

/-- C3: after step_started for N the live log and subagent index of N are
empty even if they previously had content, every step record numbered N is
running with its error text cleared, every earlier record that was running is
demoted to completed with no completion frame required, and all other records
are untouched. -/
theorem C3_step_started (now : Nat) (s : Store) (N : Nat) (i : Nat)
    (old new : PipelineStep)
    (hold : s.currentSteps[i]? = some old)
    (hnew : (handleWSMessage now s (WSMessage.step_started N)).currentSteps[i]? = some new) :
    alLookup (handleWSMessage now s (WSMessage.step_started N)).stepEvents N = none ∧
    alLookup (handleWSMessage now s (WSMessage.step_started N)).stepSubagentActivities N =
      none ∧
    (old.step_number = N → new.status = StepStatus.running ∧ new.error_message = none) ∧
    (old.step_number < N → old.status = StepStatus.running →
      new.status = StepStatus.completed) ∧
    (old.step_number ≠ N → ¬(old.step_number < N ∧ old.status = StepStatus.running) →
      new = old) := by
  have hsteps : (handleWSMessage now s (WSMessage.step_started N)).currentSteps =
      s.currentSteps.map (fun st =>
        if st.step_number = N then
          { st with status := StepStatus.running, error_message := none }
        else if st.step_number < N ∧ st.status = StepStatus.running then
          { st with status := StepStatus.completed }
        else st) := rfl
  rw [hsteps, List.getElem?_map, hold] at hnew
  have hfe := (Option.some.injEq _ _).mp hnew
  refine ⟨alLookup_alErase_self _ _, alLookup_alErase_self _ _, ?_, ?_, ?_⟩
  · intro hN
    rw [← hfe]
    simp [hN]
  · intro hlt hrun
    have hne : ¬ old.step_number = N := by omega
    rw [← hfe]
    simp [hne, hlt, hrun]
  · intro hne hnot
    rw [← hfe]
    simp [hne, hnot]

/-- Witness for C3: a store where step 1 is running and step 2 pending; a
step_started for step 2 demotes record 1 (index 0) to completed. -/
theorem C3_step_started_witness :
    exStoreRun.currentSteps[0]? = some (exStep 1 StepStatus.running) ∧
    (handleWSMessage 7 exStoreRun (WSMessage.step_started 2)).currentSteps[0]? =
      some { exStep 1 StepStatus.running with status := StepStatus.completed } ∧
    ((exStep 1 StepStatus.running).step_number < 2 →
      (exStep 1 StepStatus.running).status = StepStatus.running →
      ({ exStep 1 StepStatus.running with status := StepStatus.completed }).status =
        StepStatus.completed) := by
  refine ⟨by decide, by decide, ?_⟩
  exact (C3_step_started 7 exStoreRun 2 0 (exStep 1 StepStatus.running)
    { exStep 1 StepStatus.running with status := StepStatus.completed }
    (by decide) (by decide)).2.2.2.1

/-! Claim C1: the basic step lifecycle scenario. -/

/-- C1: for a step N with an empty live log, the sequence step_started,
token Hel, token lo, tool_call_started Search, step_completed(10, 1/100)
leaves the frozen view for N displaying [Text Hello, ToolCall Search], the
flattened output Hello, every record numbered N completed, the live log for N
empty, and the pipeline totals increased additively by exactly 10 tokens and
1/100 cost. -/
theorem C1_step_lifecycle (s : Store) (N : Nat) (p : Pipeline)
    (t1 t2 t3 t4 t5 : Nat) (next : Option Nat) (outp : Option String)
    (hlive : (alLookup s.stepEvents N).getD [] = [])
    (hp : s.currentPipeline = some p) :
    ((alLookup (c1Result s N t1 t2 t3 t4 t5 next outp).completedEvents N).getD []).map
        displayOfApi =
      [DisplayItem.text "Hello", DisplayItem.tool "Search" Json.empty] ∧
    alLookup (c1Result s N t1 t2 t3 t4 t5 next outp).stepOutputs N = some "Hello" ∧
    (∀ st, st ∈ (c1Result s N t1 t2 t3 t4 t5 next outp).currentSteps →
      st.step_number = N → st.status = StepStatus.completed) ∧
    alLookup (c1Result s N t1 t2 t3 t4 t5 next outp).stepEvents N = none ∧
    (∃ p', (c1Result s N t1 t2 t3 t4 t5 next outp).currentPipeline = some p' ∧
      p'.total_tokens = p.total_tokens + 10 ∧ p'.total_cost = p.total_cost + 1/100) := by
  set s1 := handleWSMessage t1 s (WSMessage.step_started N) with hs1
  set s2 := handleWSMessage t2 s1 (WSMessage.token N "Hel") with hs2
  set s3 := handleWSMessage t3 s2 (WSMessage.token N "lo") with hs3
  set s4 := handleWSMessage t4 s3
    (WSMessage.tool_call_started N "Search" none Json.empty) with hs4
  set s5 := handleWSMessage t5 s4
    (WSMessage.step_completed N next 10 (1/100) outp) with hs5
  have hres : c1Result s N t1 t2 t3 t4 t5 next outp = s5 := rfl
  have h1e : alLookup s1.stepEvents N = none := alLookup_alErase_self _ _
  have h2e : alLookup s2.stepEvents N = some [StepEvent.text "Hel" t2] := by
    rw [hs2, stepEvents_token, h1e]
    rfl
  have h3e : alLookup s3.stepEvents N = some [StepEvent.text "Hello" t2] := by
    rw [hs3, stepEvents_token, h2e]
    rfl
  have h4e : alLookup s4.stepEvents N =
      some [StepEvent.text "Hello" t2,
        StepEvent.tool_call "Search" none Json.empty t4] := by
    rw [hs4, stepEvents_tool_call, h3e]
    rfl
  have hce : alLookup s5.completedEvents N =
      some (((alLookup s4.stepEvents N).getD []).map toApiEvent) := by
    rw [hs5]
    exact alLookup_alSet_self _ _ _
  have hso : alLookup s5.stepOutputs N =
      some (jsOrStr (flattenText ((alLookup s4.stepEvents N).getD [])) (outp.getD "")) := by
    rw [hs5]
    exact alLookup_alSet_self _ _ _
  rw [hres]
  refine ⟨?_, ?_, ?_, ?_, ?_⟩
  · rw [hce, h4e]
    rfl
  · rw [hso, h4e]
    rfl
  · have hsteps : s5.currentSteps =
        (s.currentSteps.map (fun st =>
          if st.step_number = N then
            { st with status := StepStatus.running, error_message := none }
          else if st.step_number < N ∧ st.status = StepStatus.running then
            { st with status := StepStatus.completed }
          else st)).map (fun st =>
          if st.step_number = N then
            { st with status := StepStatus.completed, tokens_used := 10, cost := 1/100 }
          else st) := rfl
    intro st hst hN
    rw [hsteps, List.map_map] at hst
    rcases List.mem_map.mp hst with ⟨st0, _, rfl⟩
    by_cases hy : ((if st0.step_number = N then
        { st0 with status := StepStatus.running, error_message := none }
      else if st0.step_number < N ∧ st0.status = StepStatus.running then
        { st0 with status := StepStatus.completed }
      else st0) : PipelineStep).step_number = N
    · simp only [Function.comp_apply, if_pos hy]
    · rw [Function.comp_apply, if_neg hy] at hN ⊢
      exact absurd hN hy
  · rw [hs5]
    exact alLookup_alErase_self _ _
  · have hp4 : s4.currentPipeline = s.currentPipeline := rfl
    have hp5 : s5.currentPipeline = s4.currentPipeline.map (fun q =>
        { q with current_step := jsOrNat next N,
                 total_tokens := q.total_tokens + 10,
                 total_cost := q.total_cost + 1/100 }) := rfl
    rw [hp5, hp4, hp]
    exact ⟨_, rfl, rfl, rfl⟩

/-- Witness for C1: the scenario run on a concrete store for step 2, whose
live log is empty, lands on output Hello and totals 110 tokens, 26/100 cost. -/
theorem C1_step_lifecycle_witness :
    (alLookup exStoreRun.stepEvents 2).getD [] = [] ∧
    exStoreRun.currentPipeline = some exPipeline ∧
    alLookup (c1Result exStoreRun 2 0 1 2 3 4 none none).stepOutputs 2 = some "Hello" ∧
    (∃ p', (c1Result exStoreRun 2 0 1 2 3 4 none none).currentPipeline = some p' ∧
      p'.total_tokens = exPipeline.total_tokens + 10 ∧
      p'.total_cost = exPipeline.total_cost + 1/100) := by
  have h := C1_step_lifecycle exStoreRun 2 exPipeline 0 1 2 3 4 none none (by decide) rfl
  exact ⟨by decide, rfl, h.2.1, h.2.2.2.2⟩

/-! Claim C2: flattened text equals token concatenation. -/

theorem tokConcat_cons_tok (p : String) (rest : List TokItem) :
    tokConcat (TokItem.tok p :: rest) = p ++ tokConcat rest := by
  show String.join (p :: _) = _
  exact joinCons _ _

theorem tokConcat_cons_tool (n : String) (id : Option String) (a : Json)
    (rest : List TokItem) :
    tokConcat (TokItem.tool n id a :: rest) = tokConcat rest := rfl

theorem tokRun_flatten (N : Nat) (items : List (Nat × TokItem)) : ∀ (s : Store),
    flattenText ((alLookup (processSeq s
        (items.map fun ti => (ti.1, tokMsg N ti.2))).stepEvents N).getD []) =
      flattenText ((alLookup s.stepEvents N).getD []) ++
        tokConcat (items.map Prod.snd) := by
  induction items with
  | nil =>
    intro s
    exact (String.append_empty _).symm
  | cons ti rest ih =>
    intro s
    rcases ti with ⟨t, item⟩
    cases item with
    | tok p =>
      rw [List.map_cons, processSeq_cons, ih]
      dsimp only [tokMsg]
      rw [stepEvents_token]
      rw [show ((some (appendTextList t ((alLookup s.stepEvents N).getD []) p)).getD
          ([] : List StepEvent)) = appendTextList t ((alLookup s.stepEvents N).getD []) p
        from rfl]
      rw [flattenText_appendTextList, List.map_cons, tokConcat_cons_tok,
        String.append_assoc]
    | tool n id a =>
      rw [List.map_cons, processSeq_cons, ih]
      dsimp only [tokMsg]
      rw [stepEvents_tool_call]
      rw [show ((some (((alLookup s.stepEvents N).getD []) ++
          [StepEvent.tool_call n id a t])).getD ([] : List StepEvent)) =
          ((alLookup s.stepEvents N).getD []) ++ [StepEvent.tool_call n id a t] from rfl]
      rw [flattenText_append_tool, List.map_cons, tokConcat_cons_tool]

/-- C2: starting from an empty live log for step N, after any sequence of
token frames with tool-call frames interleaved, the flattened text (in-order
concatenation of the Text entries of N's log) equals the concatenation of the
token payloads in arrival order, however they were coalesced; a token arriving
onto a trailing Text entry extends it in place, otherwise a fresh Text entry
is appended. -/
theorem C2_flatten_tokens (s : Store) (N : Nat) (items : List (Nat × TokItem))
    (hlive : (alLookup s.stepEvents N).getD [] = []) :
    flattenText ((alLookup (processSeq s
        (items.map fun ti => (ti.1, tokMsg N ti.2))).stepEvents N).getD []) =
      tokConcat (items.map Prod.snd) ∧
    (∀ now (L : List StepEvent) c ts t, L.getLast? = some (StepEvent.text c ts) →
      appendTextList now L t = L.dropLast ++ [StepEvent.text (c ++ t) ts]) ∧
    (∀ now (L : List StepEvent) t,
      (∀ c ts, L.getLast? ≠ some (StepEvent.text c ts)) →
      appendTextList now L t = L ++ [StepEvent.text t now]) := by
  refine ⟨?_, ?_, ?_⟩
  · rw [tokRun_flatten N items s, hlive]
    exact String.empty_append _
  · intro now L c ts t h
    unfold appendTextList
    rw [h]
  · intro now L t h
    unfold appendTextList
    rcases hL : L.getLast? with _ | ev
    · rfl
    · cases ev with
      | text c ts => exact absurd hL (h c ts)
      | tool_call a b cc d => rfl

/-- Witness for C2: tokens ab and c with a tool call in between flatten to
abc from the empty store. -/
theorem C2_flatten_tokens_witness :
    (alLookup initStore.stepEvents 1).getD [] = [] ∧
    flattenText ((alLookup (processSeq initStore
        ([(0, TokItem.tok "ab"), (1, TokItem.tool "T" none Json.empty),
          (2, TokItem.tok "c")].map fun ti => (ti.1, tokMsg 1 ti.2))).stepEvents 1).getD
        []) =
      tokConcat ([(0, TokItem.tok "ab"), (1, TokItem.tool "T" none Json.empty),
        (2, TokItem.tok "c")].map Prod.snd) :=
  ⟨rfl, (C2_flatten_tokens initStore 1
    [(0, TokItem.tok "ab"), (1, TokItem.tool "T" none Json.empty),
     (2, TokItem.tok "c")] rfl).1⟩

/-! Claim C4: reconciliation idempotence machinery. -/

theorem replayFold_quiet (now stepNum : Nat) (tcs : List StepToolCall) : ∀ (st : Store),
    ((tcs.foldl (fun st2 tc =>
        appendToolCallEvent now st2 stepNum tc.tool tc.arguments tc.tool_use_id) st).sessionId
      = st.sessionId) ∧
    ((tcs.foldl (fun st2 tc =>
        appendToolCallEvent now st2 stepNum tc.tool tc.arguments tc.tool_use_id)
        st).currentPipeline = st.currentPipeline) ∧
    ((tcs.foldl (fun st2 tc =>
        appendToolCallEvent now st2 stepNum tc.tool tc.arguments tc.tool_use_id)
        st).currentSteps = st.currentSteps) ∧
    ((tcs.foldl (fun st2 tc =>
        appendToolCallEvent now st2 stepNum tc.tool tc.arguments tc.tool_use_id)
        st).stepOutputs = st.stepOutputs) ∧
    ((tcs.foldl (fun st2 tc =>
        appendToolCallEvent now st2 stepNum tc.tool tc.arguments tc.tool_use_id)
        st).stepSubagentActivities = st.stepSubagentActivities) ∧
    ((tcs.foldl (fun st2 tc =>
        appendToolCallEvent now st2 stepNum tc.tool tc.arguments tc.tool_use_id)
        st).userInputRequest = st.userInputRequest) ∧
    ((tcs.foldl (fun st2 tc =>
        appendToolCallEvent now st2 stepNum tc.tool tc.arguments tc.tool_use_id)
        st).worktreeStatus = st.worktreeStatus) ∧
    ((tcs.foldl (fun st2 tc =>
        appendToolCallEvent now st2 stepNum tc.tool tc.arguments tc.tool_use_id)
        st).pendingClarification = st.pendingClarification) ∧
    ((tcs.foldl (fun st2 tc =>
        appendToolCallEvent now st2 stepNum tc.tool tc.arguments tc.tool_use_id)
        st).currentPR = st.currentPR) ∧
    ((tcs.foldl (fun st2 tc =>
        appendToolCallEvent now st2 stepNum tc.tool tc.arguments tc.tool_use_id)
        st).offlineEvents = st.offlineEvents) ∧
    ((tcs.foldl (fun st2 tc =>
        appendToolCallEvent now st2 stepNum tc.tool tc.arguments tc.tool_use_id)
        st).showOfflineBanner = st.showOfflineBanner) ∧
    ((tcs.foldl (fun st2 tc =>
        appendToolCallEvent now st2 stepNum tc.tool tc.arguments tc.tool_use_id)
        st).completedEvents = st.completedEvents) ∧
    ((tcs.foldl (fun st2 tc =>
        appendToolCallEvent now st2 stepNum tc.tool tc.arguments tc.tool_use_id)
        st).completedToolCalls = st.completedToolCalls) := by
  induction tcs with
  | nil =>
    intro st
    exact ⟨rfl, rfl, rfl, rfl, rfl, rfl, rfl, rfl, rfl, rfl, rfl, rfl, rfl⟩
  | cons tc rest ih =>
    intro st
    exact ih (appendToolCallEvent now st stepNum tc.tool tc.arguments tc.tool_use_id)

theorem loadStepFold_quiet (now : Nat) (r : Option Nat)
    (acc : List (Nat × String) × Store) (p : Nat × RespStepData) :
    ((loadStepFold now r acc p).2.sessionId = acc.2.sessionId) ∧
    ((loadStepFold now r acc p).2.currentPipeline = acc.2.currentPipeline) ∧
    ((loadStepFold now r acc p).2.currentSteps = acc.2.currentSteps) ∧
    ((loadStepFold now r acc p).2.stepOutputs = acc.2.stepOutputs) ∧
    ((loadStepFold now r acc p).2.stepSubagentActivities = acc.2.stepSubagentActivities) ∧
    ((loadStepFold now r acc p).2.userInputRequest = acc.2.userInputRequest) ∧
    ((loadStepFold now r acc p).2.worktreeStatus = acc.2.worktreeStatus) ∧
    ((loadStepFold now r acc p).2.pendingClarification = acc.2.pendingClarification) ∧
    ((loadStepFold now r acc p).2.currentPR = acc.2.currentPR) ∧
    ((loadStepFold now r acc p).2.offlineEvents = acc.2.offlineEvents) ∧
    ((loadStepFold now r acc p).2.showOfflineBanner = acc.2.showOfflineBanner) := by
  by_cases hrep : r = some p.1 ∧ p.2.tool_calls ≠ []
  · have h2 : (loadStepFold now r acc p).2 = p.2.tool_calls.foldl (fun st2 tc =>
        appendToolCallEvent now st2 p.1 tc.tool tc.arguments tc.tool_use_id) acc.2 := by
      simp [loadStepFold, hrep]
    rw [h2]
    obtain ⟨a, b, c, d, e, f, g, h, i, j, k, _, _⟩ := replayFold_quiet now p.1 p.2.tool_calls acc.2
    exact ⟨a, b, c, d, e, f, g, h, i, j, k⟩
  · by_cases hev : p.2.events ≠ []
    · have h2 : (loadStepFold now r acc p).2 = setCompletedEvents acc.2 p.1 p.2.events := by
        simp [loadStepFold, hrep, hev]
      rw [h2]
      exact ⟨rfl, rfl, rfl, rfl, rfl, rfl, rfl, rfl, rfl, rfl, rfl⟩
    · by_cases htc : p.2.tool_calls ≠ []
      · have hr : ¬(r = some p.1) := fun hh => hrep ⟨hh, htc⟩
        have h2 : (loadStepFold now r acc p).2 = setCompletedToolCalls acc.2 p.1
            (p.2.tool_calls.map fun tc => ⟨tc.tool, tc.arguments⟩) := by
          simp [loadStepFold, hr, hev, htc]
        rw [h2]
        exact ⟨rfl, rfl, rfl, rfl, rfl, rfl, rfl, rfl, rfl, rfl, rfl⟩
      · have h2 : (loadStepFold now r acc p).2 = acc.2 := by
          simp [loadStepFold, hrep, hev, htc]
        rw [h2]
        exact ⟨rfl, rfl, rfl, rfl, rfl, rfl, rfl, rfl, rfl, rfl, rfl⟩

theorem fold_quiet (now : Nat) (r : Option Nat) (resp : List (Nat × RespStepData)) :
    ∀ (acc : List (Nat × String) × Store),
    ((resp.foldl (loadStepFold now r) acc).2.sessionId = acc.2.sessionId) ∧
    ((resp.foldl (loadStepFold now r) acc).2.currentPipeline = acc.2.currentPipeline) ∧
    ((resp.foldl (loadStepFold now r) acc).2.currentSteps = acc.2.currentSteps) ∧
    ((resp.foldl (loadStepFold now r) acc).2.stepOutputs = acc.2.stepOutputs) ∧
    ((resp.foldl (loadStepFold now r) acc).2.stepSubagentActivities =
      acc.2.stepSubagentActivities) ∧
    ((resp.foldl (loadStepFold now r) acc).2.userInputRequest = acc.2.userInputRequest) ∧
    ((resp.foldl (loadStepFold now r) acc).2.worktreeStatus = acc.2.worktreeStatus) ∧
    ((resp.foldl (loadStepFold now r) acc).2.pendingClarification =
      acc.2.pendingClarification) ∧
    ((resp.foldl (loadStepFold now r) acc).2.currentPR = acc.2.currentPR) ∧
    ((resp.foldl (loadStepFold now r) acc).2.offlineEvents = acc.2.offlineEvents) ∧
    ((resp.foldl (loadStepFold now r) acc).2.showOfflineBanner = acc.2.showOfflineBanner) := by
  induction resp with
  | nil =>
    intro acc
    exact ⟨rfl, rfl, rfl, rfl, rfl, rfl, rfl, rfl, rfl, rfl, rfl⟩
  | cons p rest ih =>
    intro acc
    obtain ⟨a1, b1, c1, d1, e1, f1, g1, h1, i1, j1, k1⟩ := ih (loadStepFold now r acc p)
    obtain ⟨a2, b2, c2, d2, e2, f2, g2, h2, i2, j2, k2⟩ := loadStepFold_quiet now r acc p
    exact ⟨a1.trans a2, b1.trans b2, c1.trans c2, d1.trans d2, e1.trans e2, f1.trans f2,
      g1.trans g2, h1.trans h2, i1.trans i2, j1.trans j2, k1.trans k2⟩

theorem ovOr_none {α : Type} (b : Option α) : ovOr none b = b := rfl

theorem ovOr_some {α : Type} (v : α) (b : Option α) : ovOr (some v) b = some v := rfl

theorem ovOr_assoc {α : Type} (a b c : Option α) :
    ovOr (ovOr a b) c = ovOr a (ovOr b c) := by
  cases a <;> cases b <;> rfl

theorem ovOr_self_right {α : Type} (a b : Option α) : ovOr a (ovOr a b) = ovOr a b := by
  cases a <;> rfl

theorem loadStepFold_stepEvents_nonreplay (now : Nat) (r : Option Nat)
    (acc : List (Nat × String) × Store) (p : Nat × RespStepData)
    (hrep : ¬(r = some p.1 ∧ p.2.tool_calls ≠ [])) :
    (loadStepFold now r acc p).2.stepEvents = acc.2.stepEvents := by
  by_cases hev : p.2.events ≠ []
  · have h2 : (loadStepFold now r acc p).2 = setCompletedEvents acc.2 p.1 p.2.events := by
      simp [loadStepFold, hrep, hev]
    rw [h2]
    rfl
  · by_cases htc : p.2.tool_calls ≠ []
    · have hr : ¬(r = some p.1) := fun hh => hrep ⟨hh, htc⟩
      have h2 : (loadStepFold now r acc p).2 = setCompletedToolCalls acc.2 p.1
          (p.2.tool_calls.map fun tc => ⟨tc.tool, tc.arguments⟩) := by
        simp [loadStepFold, hr, hev, htc]
      rw [h2]
      rfl
    · have h2 : (loadStepFold now r acc p).2 = acc.2 := by
        simp [loadStepFold, hrep, hev, htc]
      rw [h2]

theorem fold_stepEvents (now : Nat) (r : Option Nat) :
    ∀ (resp : List (Nat × RespStepData)) (acc : List (Nat × String) × Store),
    noReplay r resp = true →
    (resp.foldl (loadStepFold now r) acc).2.stepEvents = acc.2.stepEvents := by
  intro resp
  induction resp with
  | nil => intro acc _; rfl
  | cons p rest ih =>
    intro acc h
    have hrep : ¬(r = some p.1 ∧ p.2.tool_calls ≠ []) := by
      rintro ⟨h1, h2⟩
      simp [noReplay, List.all_cons, h1, h2] at h
    have hrest : noReplay r rest = true := by
      simp only [noReplay, List.all_cons, Bool.and_eq_true] at h
      exact h.2
    rw [List.foldl_cons, ih (loadStepFold now r acc p) hrest,
      loadStepFold_stepEvents_nonreplay now r acc p hrep]

theorem fold_out_lookup (now : Nat) (r : Option Nat) :
    ∀ (resp : List (Nat × RespStepData)) (acc : List (Nat × String) × Store) (k : Nat),
    alLookup (resp.foldl (loadStepFold now r) acc).1 k =
      ovOr (outVal k resp) (alLookup acc.1 k) := by
  intro resp
  induction resp with
  | nil => intro acc k; rfl
  | cons p rest ih =>
    intro acc k
    rw [List.foldl_cons, ih]
    have h1 : (loadStepFold now r acc p).1 =
        if p.2.content ≠ "" then alSet acc.1 p.1 p.2.content else acc.1 := rfl
    rw [h1]
    rcases hov : outVal k rest with _ | v
    · rw [show outVal k (p :: rest) = ovOr (outVal k rest)
          (if p.2.content ≠ "" ∧ p.1 = k then some p.2.content else none) from rfl, hov,
        ovOr_none, ovOr_none]
      by_cases hc : p.2.content ≠ ""
      · by_cases hk : p.1 = k
        · subst hk
          simp [hc, alLookup_alSet_self, ovOr]
        · have hkk : k ≠ p.1 := fun hh => hk hh.symm
          simp [hc, hk, alLookup_alSet_ne _ _ _ _ hkk, ovOr]
      · simp [hc, ovOr]
    · rw [show outVal k (p :: rest) = ovOr (outVal k rest)
          (if p.2.content ≠ "" ∧ p.1 = k then some p.2.content else none) from rfl, hov]
      rfl

theorem fold_ce_lookup (now : Nat) (r : Option Nat) :
    ∀ (resp : List (Nat × RespStepData)) (acc : List (Nat × String) × Store) (k : Nat),
    alLookup (resp.foldl (loadStepFold now r) acc).2.completedEvents k =
      ovOr (ceVal r k resp) (alLookup acc.2.completedEvents k) := by
  intro resp
  induction resp with
  | nil => intro acc k; rfl
  | cons p rest ih =>
    intro acc k
    rw [List.foldl_cons, ih]
    have hceval : ceVal r k (p :: rest) = ovOr (ceVal r k rest)
        (if ¬(r = some p.1 ∧ p.2.tool_calls ≠ []) ∧ p.2.events ≠ [] ∧ p.1 = k
         then some p.2.events else none) := rfl
    rcases hov : ceVal r k rest with _ | v
    · rw [hceval, hov, ovOr_none, ovOr_none]
      by_cases hrep : r = some p.1 ∧ p.2.tool_calls ≠ []
      · have h2 : (loadStepFold now r acc p).2 = p.2.tool_calls.foldl (fun st2 tc =>
            appendToolCallEvent now st2 p.1 tc.tool tc.arguments tc.tool_use_id) acc.2 := by
          simp [loadStepFold, hrep]
        rw [h2,
          (replayFold_quiet now p.1 p.2.tool_calls acc.2).2.2.2.2.2.2.2.2.2.2.2.1]
        simp [hrep, ovOr]
      · by_cases hev : p.2.events ≠ []
        · have h2 : (loadStepFold now r acc p).2 =
              setCompletedEvents acc.2 p.1 p.2.events := by
            simp [loadStepFold, hrep, hev]
          rw [h2]
          by_cases hk : p.1 = k
          · subst hk
            rw [show (setCompletedEvents acc.2 p.1 p.2.events).completedEvents =
                alSet acc.2.completedEvents p.1 p.2.events from rfl, alLookup_alSet_self]
            simp [hrep, hev, ovOr]
          · have hkk : k ≠ p.1 := fun hh => hk hh.symm
            rw [show (setCompletedEvents acc.2 p.1 p.2.events).completedEvents =
                alSet acc.2.completedEvents p.1 p.2.events from rfl,
              alLookup_alSet_ne _ _ _ _ hkk]
            simp [hk, ovOr]
        · by_cases htc : p.2.tool_calls ≠ []
          · have hr : ¬(r = some p.1) := fun hh => hrep ⟨hh, htc⟩
            have h2 : (loadStepFold now r acc p).2 = setCompletedToolCalls acc.2 p.1
                (p.2.tool_calls.map fun tc => ⟨tc.tool, tc.arguments⟩) := by
              simp [loadStepFold, hr, hev, htc]
            rw [h2]
            simp [setCompletedToolCalls, hev, ovOr]
          · have h2 : (loadStepFold now r acc p).2 = acc.2 := by
              simp [loadStepFold, hrep, hev, htc]
            rw [h2]
            simp [hev, ovOr]
    · rw [hceval, hov]
      rfl

theorem fold_ctc_lookup (now : Nat) (r : Option Nat) :
    ∀ (resp : List (Nat × RespStepData)) (acc : List (Nat × String) × Store) (k : Nat),
    alLookup (resp.foldl (loadStepFold now r) acc).2.completedToolCalls k =
      ovOr (ctcVal r k resp) (alLookup acc.2.completedToolCalls k) := by
  intro resp
  induction resp with
  | nil => intro acc k; rfl
  | cons p rest ih =>
    intro acc k
    rw [List.foldl_cons, ih]
    have hcval : ctcVal r k (p :: rest) = ovOr (ctcVal r k rest)
        (if ¬(r = some p.1 ∧ p.2.tool_calls ≠ []) ∧ ¬(p.2.events ≠ []) ∧
            p.2.tool_calls ≠ [] ∧ p.1 = k
         then some (p.2.tool_calls.map fun tc => ⟨tc.tool, tc.arguments⟩)
         else none) := rfl
    rcases hov : ctcVal r k rest with _ | v
    · rw [hcval, hov, ovOr_none, ovOr_none]
      by_cases hrep : r = some p.1 ∧ p.2.tool_calls ≠ []
      · have h2 : (loadStepFold now r acc p).2 = p.2.tool_calls.foldl (fun st2 tc =>
            appendToolCallEvent now st2 p.1 tc.tool tc.arguments tc.tool_use_id) acc.2 := by
          simp [loadStepFold, hrep]
        rw [h2,
          (replayFold_quiet now p.1 p.2.tool_calls acc.2).2.2.2.2.2.2.2.2.2.2.2.2]
        simp [hrep, ovOr]
      · by_cases hev : p.2.events ≠ []
        · have h2 : (loadStepFold now r acc p).2 =
              setCompletedEvents acc.2 p.1 p.2.events := by
            simp [loadStepFold, hrep, hev]
          rw [h2]
          simp [setCompletedEvents, hev, ovOr]
        · by_cases htc : p.2.tool_calls ≠ []
          · have hr : ¬(r = some p.1) := fun hh => hrep ⟨hh, htc⟩
            have h2 : (loadStepFold now r acc p).2 = setCompletedToolCalls acc.2 p.1
                (p.2.tool_calls.map fun tc => ⟨tc.tool, tc.arguments⟩) := by
              simp [loadStepFold, hr, hev, htc]
            rw [h2]
            by_cases hk : p.1 = k
            · subst hk
              rw [show (setCompletedToolCalls acc.2 p.1
                  (p.2.tool_calls.map fun tc => ⟨tc.tool, tc.arguments⟩)).completedToolCalls =
                  alSet acc.2.completedToolCalls p.1
                    (p.2.tool_calls.map fun tc => ⟨tc.tool, tc.arguments⟩) from rfl,
                alLookup_alSet_self]
              simp [hr, hev, htc, ovOr]
            · have hkk : k ≠ p.1 := fun hh => hk hh.symm
              rw [show (setCompletedToolCalls acc.2 p.1
                  (p.2.tool_calls.map fun tc => ⟨tc.tool, tc.arguments⟩)).completedToolCalls =
                  alSet acc.2.completedToolCalls p.1
                    (p.2.tool_calls.map fun tc => ⟨tc.tool, tc.arguments⟩) from rfl,
                alLookup_alSet_ne _ _ _ _ hkk]
              simp [hk, ovOr]
          · have h2 : (loadStepFold now r acc p).2 = acc.2 := by
              simp [loadStepFold, hrep, hev, htc]
            rw [h2]
            simp [hev, htc, ovOr]
    · rw [hcval, hov]
      rfl

theorem ovOr_none_right {α : Type} (a : Option α) : ovOr a none = a := by
  cases a <;> rfl

theorem ovOr_eq_orElse {α : Type} (a b : Option α) :
    ovOr a b = a.orElse (fun _ => b) := by
  cases a <;> rfl

theorem load_stepEvents (now : Nat) (resp : List (Nat × RespStepData)) (r : Option Nat)
    (subs : List SubagentTCResp) (s : Store) (h : noReplay r resp = true) :
    (loadStepOutputs now resp r subs s).stepEvents = s.stepEvents := by
  have hacc := fold_stepEvents now r resp ([], s) h
  by_cases h1 : (resp.foldl (loadStepFold now r) ([], s)).1 ≠ [] <;>
    by_cases h2 : (subs.foldl groupSubagentStep []) ≠ [] <;>
    simp [loadStepOutputs, h1, h2, setStepOutputs, setStepSubagentActivities, hacc]

theorem load_out_lookup (now : Nat) (resp : List (Nat × RespStepData)) (r : Option Nat)
    (subs : List SubagentTCResp) (s : Store) (k : Nat) :
    alLookup (loadStepOutputs now resp r subs s).stepOutputs k =
      ovOr (outVal k resp) (alLookup s.stepOutputs k) := by
  have hout := fold_out_lookup now r resp ([], s) k
  rw [show alLookup ([], s).1 k = none from rfl, ovOr_none_right] at hout
  have hqs := (fold_quiet now r resp ([], s)).2.2.2.1
  by_cases h1 : (resp.foldl (loadStepFold now r) ([], s)).1 ≠ []
  · by_cases h2 : (subs.foldl groupSubagentStep []) ≠ []
    · simp only [loadStepOutputs]
      rw [if_pos h1, if_pos h2]
      show alLookup (alMerge (resp.foldl (loadStepFold now r) ([], s)).2.stepOutputs
        (resp.foldl (loadStepFold now r) ([], s)).1) k = _
      rw [alLookup_alMerge, ← ovOr_eq_orElse, hout, hqs]
    · simp only [loadStepOutputs]
      rw [if_pos h1, if_neg h2]
      show alLookup (alMerge (resp.foldl (loadStepFold now r) ([], s)).2.stepOutputs
        (resp.foldl (loadStepFold now r) ([], s)).1) k = _
      rw [alLookup_alMerge, ← ovOr_eq_orElse, hout, hqs]
  · have hnil : (resp.foldl (loadStepFold now r) ([], s)).1 = [] := by
      by_contra hc
      exact h1 hc
    have hov : outVal k resp = none := by
      rw [hnil] at hout
      exact hout.symm
    by_cases h2 : (subs.foldl groupSubagentStep []) ≠ []
    · simp only [loadStepOutputs]
      rw [if_neg h1, if_pos h2]
      show alLookup (resp.foldl (loadStepFold now r) ([], s)).2.stepOutputs k = _
      rw [hqs, hov, ovOr_none]
    · simp only [loadStepOutputs]
      rw [if_neg h1, if_neg h2]
      show alLookup (resp.foldl (loadStepFold now r) ([], s)).2.stepOutputs k = _
      rw [hqs, hov, ovOr_none]

theorem load_ce_lookup (now : Nat) (resp : List (Nat × RespStepData)) (r : Option Nat)
    (subs : List SubagentTCResp) (s : Store) (k : Nat) :
    alLookup (loadStepOutputs now resp r subs s).completedEvents k =
      ovOr (ceVal r k resp) (alLookup s.completedEvents k) := by
  have hce := fold_ce_lookup now r resp ([], s) k
  by_cases h1 : (resp.foldl (loadStepFold now r) ([], s)).1 ≠ [] <;>
    by_cases h2 : (subs.foldl groupSubagentStep []) ≠ [] <;>
    · simp only [loadStepOutputs]
      first
      | rw [if_pos h1] | rw [if_neg h1]
      first
      | rw [if_pos h2] | rw [if_neg h2]
      exact hce

theorem load_ctc_lookup (now : Nat) (resp : List (Nat × RespStepData)) (r : Option Nat)
    (subs : List SubagentTCResp) (s : Store) (k : Nat) :
    alLookup (loadStepOutputs now resp r subs s).completedToolCalls k =
      ovOr (ctcVal r k resp) (alLookup s.completedToolCalls k) := by
  have hctc := fold_ctc_lookup now r resp ([], s) k
  by_cases h1 : (resp.foldl (loadStepFold now r) ([], s)).1 ≠ [] <;>
    by_cases h2 : (subs.foldl groupSubagentStep []) ≠ [] <;>
    · simp only [loadStepOutputs]
      first
      | rw [if_pos h1] | rw [if_neg h1]
      first
      | rw [if_pos h2] | rw [if_neg h2]
      exact hctc

theorem load_ssa (now : Nat) (resp : List (Nat × RespStepData)) (r : Option Nat)
    (subs : List SubagentTCResp) (s : Store) :
    (loadStepOutputs now resp r subs s).stepSubagentActivities =
      (if (subs.foldl groupSubagentStep []) ≠ [] then subs.foldl groupSubagentStep []
       else s.stepSubagentActivities) := by
  have hq := (fold_quiet now r resp ([], s)).2.2.2.2.1
  by_cases h1 : (resp.foldl (loadStepFold now r) ([], s)).1 ≠ [] <;>
    by_cases h2 : (subs.foldl groupSubagentStep []) ≠ [] <;>
    · simp only [loadStepOutputs]
      first
      | rw [if_pos h1] | rw [if_neg h1]
      first
      | rw [if_pos h2, if_pos h2] | rw [if_neg h2, if_neg h2]
      first
      | rfl
      | exact hq

theorem load_quiet (now : Nat) (resp : List (Nat × RespStepData)) (r : Option Nat)
    (subs : List SubagentTCResp) (s : Store) :
    ((loadStepOutputs now resp r subs s).sessionId = s.sessionId) ∧
    ((loadStepOutputs now resp r subs s).currentPipeline = s.currentPipeline) ∧
    ((loadStepOutputs now resp r subs s).currentSteps = s.currentSteps) ∧
    ((loadStepOutputs now resp r subs s).userInputRequest = s.userInputRequest) ∧
    ((loadStepOutputs now resp r subs s).worktreeStatus = s.worktreeStatus) ∧
    ((loadStepOutputs now resp r subs s).pendingClarification = s.pendingClarification) ∧
    ((loadStepOutputs now resp r subs s).currentPR = s.currentPR) ∧
    ((loadStepOutputs now resp r subs s).offlineEvents = s.offlineEvents) ∧
    ((loadStepOutputs now resp r subs s).showOfflineBanner = s.showOfflineBanner) := by
  obtain ⟨a, b, c, _, _, f, g, h, i, j, kk⟩ := fold_quiet now r resp ([], s)
  by_cases h1 : (resp.foldl (loadStepFold now r) ([], s)).1 ≠ [] <;>
    by_cases h2 : (subs.foldl groupSubagentStep []) ≠ [] <;>
    · simp only [loadStepOutputs]
      first
      | rw [if_pos h1] | rw [if_neg h1]
      first
      | rw [if_pos h2] | rw [if_neg h2]
      exact ⟨a, b, c, f, g, h, i, j, kk⟩

/-- C4 counterexample: with a snapshot naming step 1 as running and carrying
one persisted tool call, a second run of the reconciliation routine on the
state produced by the first run appends the same tool call again into the live
log of step 1: the live log differs (two copies instead of one) and the final
states are not identical. -/
theorem C4_reconcile_not_idempotent_counterexample :
    alLookup (loadStepOutputs 0 exRespSteps (some 1) []
        (loadStepOutputs 0 exRespSteps (some 1) [] initStore)).stepEvents 1 ≠
      alLookup (loadStepOutputs 0 exRespSteps (some 1) [] initStore).stepEvents 1 ∧
    loadStepOutputs 0 exRespSteps (some 1) []
        (loadStepOutputs 0 exRespSteps (some 1) [] initStore) ≠
      loadStepOutputs 0 exRespSteps (some 1) [] initStore := by
  constructor
  · decide
  · decide

/-- C4 amended: re-running the reconciliation with the same server snapshot
from the state the first run produced yields an identical final state
provided the snapshot triggers no running-step tool-call replay (no running
step named, or the entry named as running has no persisted tool calls).  The
frozen views, legacy fallbacks, flat outputs and subagent index are installed
by wholesale replacement and never duplicated; only the replay path appends
and duplicates. -/
theorem C4_reconcile_idempotent_amended (now : Nat) (resp : List (Nat × RespStepData))
    (r : Option Nat) (subs : List SubagentTCResp) (s : Store)
    (h : noReplay r resp = true) :
    StoreObsEq (loadStepOutputs now resp r subs (loadStepOutputs now resp r subs s))
      (loadStepOutputs now resp r subs s) := by
  obtain ⟨a, b, c, f, g, hh, i, j, kk⟩ :=
    load_quiet now resp r subs (loadStepOutputs now resp r subs s)
  refine ⟨a, b, c, ?_, ?_, ?_, ?_, ?_, f, g, hh, i, j, kk⟩
  · exact load_stepEvents now resp r subs (loadStepOutputs now resp r subs s) h
  · intro k
    rw [load_out_lookup, load_out_lookup, ovOr_self_right]
  · intro k
    rw [load_ce_lookup, load_ce_lookup, ovOr_self_right]
  · intro k
    rw [load_ctc_lookup, load_ctc_lookup, ovOr_self_right]
  · rw [load_ssa, load_ssa]
    by_cases hg : (subs.foldl groupSubagentStep []) ≠ [] <;> simp [hg]

/-- Witness for the amended C4 at a concrete replay-free snapshot. -/
theorem C4_reconcile_idempotent_amended_witness :
    noReplay none exRespOk = true ∧
    StoreObsEq (loadStepOutputs 0 exRespOk none exSubs
        (loadStepOutputs 0 exRespOk none exSubs initStore))
      (loadStepOutputs 0 exRespOk none exSubs initStore) :=
  ⟨by decide, C4_reconcile_idempotent_amended 0 exRespOk none exSubs initStore (by decide)⟩

/-! Claim C5: prefix-stability of the presented log. -/

theorem logExtends_refl (l : List DisplayItem) : logExtends l l :=
  Or.inl ⟨[], (List.append_nil l).symm⟩

theorem logExtends_append (l rest : List DisplayItem) : logExtends l (l ++ rest) :=
  Or.inl ⟨rest, rfl⟩

theorem displayOfApi_toApiEvent (e : StepEvent) :
    displayOfApi (toApiEvent e) = displayOfLive e := by
  cases e <;> rfl

theorem find?_some_number (l : List PipelineStep) (n : Nat) (st : PipelineStep)
    (h : l.find? (fun st => st.step_number == n) = some st) : st.step_number = n := by
  have := List.find?_some h
  simpa using this

theorem displayedForStep_congr_lookup (s s' : Store) (st : PipelineStep)
    (hev : alLookup s'.stepEvents st.step_number = alLookup s.stepEvents st.step_number)
    (hce : alLookup s'.completedEvents st.step_number =
      alLookup s.completedEvents st.step_number)
    (hso : alLookup s'.stepOutputs st.step_number = alLookup s.stepOutputs st.step_number) :
    displayedForStep s' st = displayedForStep s st := by
  unfold displayedForStep
  rw [hev, hce, hso]

theorem presentedLog_eq_of (s s' : Store) (n : Nat)
    (hfind : s'.currentSteps.find? (fun st => st.step_number == n) =
      s.currentSteps.find? (fun st => st.step_number == n))
    (hev : alLookup s'.stepEvents n = alLookup s.stepEvents n)
    (hce : alLookup s'.completedEvents n = alLookup s.completedEvents n)
    (hso : alLookup s'.stepOutputs n = alLookup s.stepOutputs n) :
    presentedLog s' n = presentedLog s n := by
  unfold presentedLog
  rw [hfind]
  rcases hf : s.currentSteps.find? (fun st => st.step_number == n) with _ | st
  · rw [hf]
  · rw [hf]
    have hn : st.step_number = n := find?_some_number _ _ _ hf
    subst hn
    exact displayedForStep_congr_lookup s s' st hev hce hso

theorem find?_map_fix (l : List PipelineStep) (f : PipelineStep → PipelineStep)
    (hf : ∀ st, (f st).step_number = st.step_number) (n : Nat)
    (hfix : ∀ st, st.step_number = n → f st = st) :
    (l.map f).find? (fun st => st.step_number == n) =
      l.find? (fun st => st.step_number == n) := by
  rw [find?_map_keyfix l f hf n]
  rcases hf2 : l.find? (fun st => st.step_number == n) with _ | st
  · rw [hf2]
    rfl
  · rw [hf2]
    have hn : st.step_number = n := find?_some_number _ _ _ hf2
    simp [hfix st hn]

theorem displayed_run_token (now : Nat) (L : List StepEvent) (tok : String) :
    logExtends (L.map displayOfLive) ((appendTextList now L tok).map displayOfLive) := by
  rcases hL : L.getLast? with _ | ev
  · rw [show appendTextList now L tok = L ++ [StepEvent.text tok now] from by
      unfold appendTextList; rw [hL]]
    rw [List.map_append]
    exact logExtends_append _ _
  · cases ev with
    | text c ts =>
      have hdec := getLast?_decomp _ _ hL
      rw [show appendTextList now L tok = L.dropLast ++ [StepEvent.text (c ++ tok) ts] from by
        unfold appendTextList; rw [hL]]
      refine Or.inr ⟨L.dropLast.map displayOfLive, c, tok, [], ?_, ?_⟩
      · conv_lhs => rw [hdec]
        simp [List.map_append, displayOfLive]
      · simp [List.map_append, displayOfLive]
    | tool_call t id a ts =>
      rw [show appendTextList now L tok = L ++ [StepEvent.text tok now] from by
        unfold appendTextList; rw [hL]]
      rw [List.map_append]
      exact logExtends_append _ _

theorem presented_token_extends (now : Nat) (s : Store) (n k : Nat) (tok : String) :
    logExtends (presentedLog s n)
      (presentedLog (handleWSMessage now s (WSMessage.token k tok)) n) := by
  by_cases hk : k = n
  · subst hk
    have hsteps : (handleWSMessage now s (WSMessage.token k tok)).currentSteps =
        s.currentSteps := rfl
    unfold presentedLog
    rw [hsteps]
    rcases hf : s.currentSteps.find? (fun st => st.step_number == k) with _ | st
    · rw [hf]
      exact logExtends_refl []
    · rw [hf]
      have hn : st.step_number = k := find?_some_number _ _ _ hf
      unfold displayedForStep
      rcases hst : st.status <;> simp only [hst]
      · exact logExtends_refl []
      · rw [hn, stepEvents_token]
        rw [show (some (appendTextList now ((alLookup s.stepEvents k).getD []) tok)).getD
            ([] : List StepEvent) =
            appendTextList now ((alLookup s.stepEvents k).getD []) tok from rfl]
        exact displayed_run_token now _ tok
      · exact logExtends_refl []
      · exact logExtends_refl _
      · exact logExtends_refl []
      · exact logExtends_refl []
      · exact logExtends_refl []
  · have hev : alLookup (handleWSMessage now s (WSMessage.token k tok)).stepEvents n =
        alLookup s.stepEvents n := by
      show alLookup (alSet s.stepEvents k _) n = _
      exact alLookup_alSet_ne _ _ _ _ (fun hh => hk hh.symm)
    rw [presentedLog_eq_of s (handleWSMessage now s (WSMessage.token k tok)) n rfl hev rfl
      rfl]
    exact logExtends_refl _

theorem presented_tool_extends (now : Nat) (s : Store) (n k : Nat) (tool : String)
    (id : Option String) (args : Json) :
    logExtends (presentedLog s n)
      (presentedLog (handleWSMessage now s
        (WSMessage.tool_call_started k tool id args)) n) := by
  by_cases hk : k = n
  · subst hk
    have hsteps : (handleWSMessage now s
        (WSMessage.tool_call_started k tool id args)).currentSteps = s.currentSteps := rfl
    unfold presentedLog
    rw [hsteps]
    rcases hf : s.currentSteps.find? (fun st => st.step_number == k) with _ | st
    · rw [hf]
      exact logExtends_refl []
    · rw [hf]
      have hn : st.step_number = k := find?_some_number _ _ _ hf
      unfold displayedForStep
      rcases hst : st.status <;> simp only [hst]
      · exact logExtends_refl []
      · rw [hn, stepEvents_tool_call]
        rw [show (some (((alLookup s.stepEvents k).getD []) ++
            [StepEvent.tool_call tool id args now])).getD ([] : List StepEvent) =
            ((alLookup s.stepEvents k).getD []) ++
              [StepEvent.tool_call tool id args now] from rfl]
        rw [List.map_append]
        exact logExtends_append _ _
      · exact logExtends_refl []
      · exact logExtends_refl _
      · exact logExtends_refl []
      · exact logExtends_refl []
      · exact logExtends_refl []
  · have hev : alLookup (handleWSMessage now s
        (WSMessage.tool_call_started k tool id args)).stepEvents n =
        alLookup s.stepEvents n := by
      show alLookup (alSet s.stepEvents k _) n = _
      exact alLookup_alSet_ne _ _ _ _ (fun hh => hk hh.symm)
    rw [presentedLog_eq_of s (handleWSMessage now s
      (WSMessage.tool_call_started k tool id args)) n rfl hev rfl rfl]
    exact logExtends_refl _

theorem logExtends_nil (lnew : List DisplayItem) : logExtends [] lnew :=
  Or.inl ⟨lnew, (List.nil_append lnew).symm⟩

theorem presented_step_completed_extends (now : Nat) (s : Store) (n k : Nat)
    (next : Option Nat) (tu : Nat) (c : ℚ) (outp : Option String)
    (hcond : k ≠ n ∨ statusOf s n = some StepStatus.running) :
    logExtends (presentedLog s n)
      (presentedLog (handleWSMessage now s
        (WSMessage.step_completed k next tu c outp)) n) := by
  by_cases hk : k = n
  · rcases hcond with hk' | hrun
    · exact absurd hk hk'
    · subst hk
      unfold statusOf at hrun
      rcases hf : s.currentSteps.find? (fun st => st.step_number == k) with _ | st
      · rw [hf] at hrun
        exact absurd hrun (by simp)
      · rw [hf] at hrun
        have hstrun : st.status = StepStatus.running := by simpa using hrun
        have hn : st.step_number = k := find?_some_number _ _ _ hf
        have hsteps : (handleWSMessage now s
            (WSMessage.step_completed k next tu c outp)).currentSteps =
            s.currentSteps.map (fun st =>
              if st.step_number = k then
                { st with status := StepStatus.completed, tokens_used := tu, cost := c }
              else st) := rfl
        unfold presentedLog
        rw [hsteps, find?_map_keyfix _ _ (fun st => by
          by_cases h : st.step_number = k <;> simp [h]), hf]
        simp only [Option.map_some']
        have hfst : (if st.step_number = k then
            { st with status := StepStatus.completed, tokens_used := tu, cost := c }
            else st) =
            { st with status := StepStatus.completed, tokens_used := tu, cost := c } := by
          simp [hn]
        rw [hfst]
        have hLHS : displayedForStep s st =
            ((alLookup s.stepEvents k).getD []).map displayOfLive := by
          unfold displayedForStep
          rw [hstrun, hn]
        rw [hLHS]
        by_cases hl : (alLookup s.stepEvents k).getD [] = []
        · rw [hl]
          exact logExtends_nil _
        · have hce : alLookup (handleWSMessage now s
              (WSMessage.step_completed k next tu c outp)).completedEvents k =
              some (((alLookup s.stepEvents k).getD []).map toApiEvent) := by
            exact alLookup_alSet_self _ _ _
          have hRHS : displayedForStep (handleWSMessage now s
              (WSMessage.step_completed k next tu c outp))
              { st with status := StepStatus.completed, tokens_used := tu, cost := c } =
              ((alLookup s.stepEvents k).getD []).map displayOfLive := by
            unfold displayedForStep
            simp only [hn, hce]
            simp [hl, List.map_map, Function.comp, displayOfApi_toApiEvent]
          rw [hRHS]
          exact logExtends_refl _
  · have hnk : (n : Nat) ≠ k := fun hh => hk hh.symm
    have hev : alLookup (handleWSMessage now s
        (WSMessage.step_completed k next tu c outp)).stepEvents n =
        alLookup s.stepEvents n := by
      show alLookup (alErase s.stepEvents k) n = _
      exact alLookup_alErase_ne _ _ _ hnk
    have hce : alLookup (handleWSMessage now s
        (WSMessage.step_completed k next tu c outp)).completedEvents n =
        alLookup s.completedEvents n := by
      show alLookup (alSet s.completedEvents k _) n = _
      exact alLookup_alSet_ne _ _ _ _ hnk
    have hso : alLookup (handleWSMessage now s
        (WSMessage.step_completed k next tu c outp)).stepOutputs n =
        alLookup s.stepOutputs n := by
      show alLookup (alSet s.stepOutputs k _) n = _
      exact alLookup_alSet_ne _ _ _ _ hnk
    have hfind : (handleWSMessage now s
        (WSMessage.step_completed k next tu c outp)).currentSteps.find?
          (fun st => st.step_number == n) =
        s.currentSteps.find? (fun st => st.step_number == n) := by
      show (s.currentSteps.map _).find? _ = _
      exact find?_map_fix _ _ (fun st => by
        by_cases h : st.step_number = k <;> simp [h]) n
        (fun st hst => by simp [hst, hnk])
    rw [presentedLog_eq_of s _ n hfind hev hce hso]
    exact logExtends_refl _

theorem presented_map_found (s s' : Store) (n : Nat) (f : PipelineStep → PipelineStep)
    (hsteps : s'.currentSteps = s.currentSteps.map f)
    (hpres : ∀ st, (f st).step_number = st.step_number)
    (hev : alLookup s'.stepEvents n = alLookup s.stepEvents n)
    (hce : alLookup s'.completedEvents n = alLookup s.completedEvents n)
    (hso : alLookup s'.stepOutputs n = alLookup s.stepOutputs n)
    (hfix : ∀ st, s.currentSteps.find? (fun st => st.step_number == n) = some st →
      f st = st) :
    presentedLog s' n = presentedLog s n := by
  unfold presentedLog
  rw [hsteps, find?_map_keyfix _ _ hpres]
  rcases hf : s.currentSteps.find? (fun st => st.step_number == n) with _ | st
  · rw [hf]
    rfl
  · rw [hf]
    simp only [Option.map_some']
    rw [hfix st hf]
    have hn : st.step_number = n := find?_some_number _ _ _ hf
    subst hn
    exact displayedForStep_congr_lookup s s' st hev hce hso

/-- C5 amended: the presented log for step n is prefix-stable (only appended
to, with the trailing text entry growing by suffix only) under every frame
except those that reclassify the step's displayed status: a step_started for n
itself (the restart the claim already excepts), a step_started for a later
step while n is running (missed-completion demotion), a step_completed for an
n that is not running, a clarification_answered for an n that is not running
(it forces n to running, hiding a frozen view), a pause, failure or
clarification request naming n, and a skip naming n as the skipped or the
next step, all of which can hide or replace the log presented so far. -/
theorem C5_presented_prefix_stable (now : Nat) (s : Store) (n : Nat) (m : WSMessage)
    (h : reclassifiesStep s n m = false) :
    logExtends (presentedLog s n) (presentedLog (handleWSMessage now s m) n) := by
  cases m with
  | token k tok => exact presented_token_extends now s n k tok
  | tool_call_started k tool id args => exact presented_tool_extends now s n k tool id args
  | step_completed k next tu c outp =>
    apply presented_step_completed_extends
    by_cases hk : k = n
    · subst hk
      right
      simp only [reclassifiesStep, beq_self_eq_true, Bool.true_and] at h
      have hb : (statusOf s k == some StepStatus.running) = true := by
        cases hsb : (statusOf s k == some StepStatus.running)
        · rw [hsb] at h
          simp at h
        · rfl
      exact eq_of_beq hb
    · exact Or.inl hk
  | step_started k =>
    simp only [reclassifiesStep, Bool.or_eq_false_iff] at h
    obtain ⟨hk1, hk2⟩ := h
    have hkn : k ≠ n := by simpa using hk1
    have hnk : n ≠ k := fun hh => hkn hh.symm
    have hnot : ¬(n < k ∧ statusOf s n = some StepStatus.running) := by
      rintro ⟨hlt, hrun⟩
      simp [hlt, hrun] at hk2
    have hev : alLookup (handleWSMessage now s (WSMessage.step_started k)).stepEvents n =
        alLookup s.stepEvents n := by
      show alLookup (alErase s.stepEvents k) n = _
      exact alLookup_alErase_ne _ _ _ hnk
    have hso : alLookup (handleWSMessage now s (WSMessage.step_started k)).stepOutputs n =
        alLookup s.stepOutputs n := by
      show alLookup (alErase s.stepOutputs k) n = _
      exact alLookup_alErase_ne _ _ _ hnk
    have hfix : ∀ st, s.currentSteps.find? (fun st => st.step_number == n) = some st →
        (fun st => if st.step_number = k then
            { st with status := StepStatus.running, error_message := none }
          else if st.step_number < k ∧ st.status = StepStatus.running then
            { st with status := StepStatus.completed }
          else st) st = st := by
      intro st hf
      have hn : st.step_number = n := find?_some_number _ _ _ hf
      have hst : statusOf s n = some st.status := by
        unfold statusOf
        rw [hf]
        rfl
      have h2 : ¬(st.step_number < k ∧ st.status = StepStatus.running) := by
        rintro ⟨hlt, hrun⟩
        exact hnot ⟨hn ▸ hlt, by rw [hst, hrun]⟩
      have h1 : ¬(st.step_number = k) := by
        rw [hn]
        exact hnk
      simp [h1, h2]
    rw [presented_map_found s _ n _ rfl (fun st => by
      by_cases h1 : st.step_number = k <;>
        by_cases h2 : st.step_number < k ∧ st.status = StepStatus.running <;>
        simp [h1, h2]) hev rfl hso hfix]
    exact logExtends_refl _
  | pipeline_paused k =>
    simp only [reclassifiesStep] at h
    have hkn : k ≠ n := by simpa using h
    have hfix : ∀ st, s.currentSteps.find? (fun st => st.step_number == n) = some st →
        (fun st => if st.step_number = k then { st with status := StepStatus.paused }
          else st) st = st := by
      intro st hf
      have hn : st.step_number = n := find?_some_number _ _ _ hf
      have h1 : ¬(st.step_number = k) := by
        rw [hn]
        exact fun hh => hkn hh.symm
      simp [h1]
    rw [presented_map_found s (handleWSMessage now s (WSMessage.pipeline_paused k)) n _
      rfl (fun st => by by_cases h1 : st.step_number = k <;> simp [h1]) rfl rfl rfl hfix]
    exact logExtends_refl _
  | pipeline_failed k err =>
    simp only [reclassifiesStep] at h
    have hkn : k ≠ n := by simpa using h
    have hfix : ∀ st, s.currentSteps.find? (fun st => st.step_number == n) = some st →
        (fun st => if st.step_number = k then
            { st with status := StepStatus.failed, error_message := some err }
          else st) st = st := by
      intro st hf
      have hn : st.step_number = n := find?_some_number _ _ _ hf
      have h1 : ¬(st.step_number = k) := by
        rw [hn]
        exact fun hh => hkn hh.symm
      simp [h1]
    rw [presented_map_found s (handleWSMessage now s (WSMessage.pipeline_failed k err)) n _
      rfl (fun st => by by_cases h1 : st.step_number = k <;> simp [h1]) rfl rfl rfl hfix]
    exact logExtends_refl _
  | clarification_requested k cid q opts ctx =>
    simp only [reclassifiesStep] at h
    have hkn : k ≠ n := by simpa using h
    have hfix : ∀ st, s.currentSteps.find? (fun st => st.step_number == n) = some st →
        (fun st => if st.step_number = k then { st with status := StepStatus.waiting }
          else st) st = st := by
      intro st hf
      have hn : st.step_number = n := find?_some_number _ _ _ hf
      have h1 : ¬(st.step_number = k) := by
        rw [hn]
        exact fun hh => hkn hh.symm
      simp [h1]
    rw [presented_map_found s
      (handleWSMessage now s (WSMessage.clarification_requested k cid q opts ctx)) n _
      rfl (fun st => by by_cases h1 : st.step_number = k <;> simp [h1]) rfl rfl rfl hfix]
    exact logExtends_refl _
  | clarification_answered k =>
    have hcond : k ≠ n ∨ statusOf s n = some StepStatus.running := by
      by_cases hk : k = n
      · subst hk
        right
        simp only [reclassifiesStep, beq_self_eq_true, Bool.true_and] at h
        have hb : (statusOf s k == some StepStatus.running) = true := by
          cases hsb : (statusOf s k == some StepStatus.running)
          · rw [hsb] at h
            simp at h
          · rfl
        exact eq_of_beq hb
      · exact Or.inl hk
    have hfix : ∀ st, s.currentSteps.find? (fun st => st.step_number == n) = some st →
        (fun st => if st.step_number = k then { st with status := StepStatus.running }
          else st) st = st := by
      intro st hf
      have hn : st.step_number = n := find?_some_number _ _ _ hf
      rcases hcond with hk | hrun
      · have h1 : ¬(st.step_number = k) := by
          rw [hn]
          exact fun hh => hk hh.symm
        simp [h1]
      · have hst : statusOf s n = some st.status := by
          unfold statusOf
          rw [hf]
          rfl
        have hsr : st.status = StepStatus.running := by
          rw [hst] at hrun
          exact (Option.some.injEq _ _).mp hrun
        by_cases h1 : st.step_number = k
        · dsimp only
          rw [if_pos h1, ← hsr]
        · simp [h1]
    rw [presented_map_found s (handleWSMessage now s (WSMessage.clarification_answered k))
      n _ rfl (fun st => by by_cases h1 : st.step_number = k <;> simp [h1]) rfl rfl rfl
      hfix]
    exact logExtends_refl _
  | step_skipped k reason next =>
    simp only [reclassifiesStep, Bool.or_eq_false_iff] at h
    obtain ⟨hk1, hk2⟩ := h
    have hkn : k ≠ n := by simpa using hk1
    have hnn : next ≠ n := by simpa using hk2
    have hfix : ∀ st, s.currentSteps.find? (fun st => st.step_number == n) = some st →
        (fun st => if st.step_number = k then
            { st with status := StepStatus.skipped,
                      error_message := some ("[SKIPPED] " ++ reason) }
          else if st.step_number = next then { st with status := StepStatus.running }
          else st) st = st := by
      intro st hf
      have hn : st.step_number = n := find?_some_number _ _ _ hf
      have h1 : ¬(st.step_number = k) := by
        rw [hn]
        exact fun hh => hkn hh.symm
      have h2 : ¬(st.step_number = next) := by
        rw [hn]
        exact fun hh => hnn hh.symm
      simp [h1, h2]
    rw [presented_map_found s
      (handleWSMessage now s (WSMessage.step_skipped k reason next)) n _ rfl (fun st => by
        by_cases h1 : st.step_number = k
        · rw [if_pos h1]
        · rw [if_neg h1]
          by_cases h2 : st.step_number = next
          · rw [if_pos h2]
          · rw [if_neg h2]) rfl rfl rfl hfix]
    exact logExtends_refl _
  | _ =>
    rw [presentedLog_eq_of s _ n rfl rfl rfl rfl]
    exact logExtends_refl _

/-- C5 counterexample: on a store whose step 1 is running with the streamed
entry Text hi presented, the single live-stream operation pipeline_paused(1)
(not a step_started for that step) leaves the presented log empty: the card
shows no event log for a paused step, so the previous log is not a prefix of
the new one. -/
theorem C5_pause_hides_log_counterexample :
    presentedLog exStoreRun 1 = [DisplayItem.text "hi"] ∧
    presentedLog (handleWSMessage 0 exStoreRun (WSMessage.pipeline_paused 1)) 1 = [] ∧
    ¬ logExtends (presentedLog exStoreRun 1)
      (presentedLog (handleWSMessage 0 exStoreRun (WSMessage.pipeline_paused 1)) 1) := by
  have e1 : presentedLog exStoreRun 1 = [DisplayItem.text "hi"] := by decide
  have e2 : presentedLog (handleWSMessage 0 exStoreRun
      (WSMessage.pipeline_paused 1)) 1 = [] := by decide
  refine ⟨e1, e2, ?_⟩
  rw [e1, e2]
  rintro (⟨rest, hr⟩ | ⟨init, c, c2, rest, h1, h2⟩)
  · exact absurd hr (by simp)
  · exact absurd h2 (by simp)

/-- Witness for the amended C5: a token frame for the running step 1 of the
concrete store is not reclassifying, and the presented log extends. -/
theorem C5_presented_prefix_stable_witness :
    reclassifiesStep exStoreRun 1 (WSMessage.token 1 "!") = false ∧
    logExtends (presentedLog exStoreRun 1)
      (presentedLog (handleWSMessage 9 exStoreRun (WSMessage.token 1 "!")) 1) :=
  ⟨by decide,
    C5_presented_prefix_stable 9 exStoreRun 1 (WSMessage.token 1 "!") (by decide)⟩
